import Mathlib

/-!
# CH2 computer: 5x7 dot-matrix display driver (`Arduino/CH2_Interrupt/display.c`)

A shallow embedding of the driver.  The global variables of `display.c` (the
framebuffer `DisplayMem`, the AVR port and data-direction registers it touches
and the static scan cursor `column`) form an explicit `State`; every C function
becomes a function on that state.  Array accesses return `Option`, so that an
access outside the array makes the whole call fail with `none` instead of
silently doing nothing.  Bytes are natural numbers, truncated with `% 256`
wherever the C code stores into a `uint8_t`.
-/

namespace CH2Display

/-! ## Constants of `display.h` -/

/-- Modelled from the spec: the constant `NUMCOLUMNS` is declared in `display.h`,
which is not part of the sources; the specification fixes N_COLS = 7. -/
def NUMCOLUMNS : Nat := 7

/-- Modelled from the spec: the constant `NUMROWS` is declared in `display.h`,
which is not part of the sources; the specification fixes N_ROWS = 5. -/
def NUMROWS : Nat := 5

/-- The layout constant of `#define SHIFTLEFT 4`. -/
def SHIFTLEFT : Nat := 4

/-- Modelled from the spec: the glyph table `smallbitmap` is declared outside
`display.c`; the specification describes it as a table indexed by glyph code
whose entries are bitmaps of 5 bytes.  It is a parameter of the renderer. -/
abbrev GlyphTable := List (List Nat)

/-! ## Machine arithmetic -/

/-- Storing a non-negative `int` value into a `uint8_t`. -/
def u8 (n : Nat) : Nat := n % 256

/-- Converting a (possibly negative) `int` value to `uint8_t`. -/
def toU8 (i : Int) : Nat := (i % 256).toNat

/-- The C operator `~` on a non-negative value of the 16-bit AVR `int`, as the
unsigned reading of the two's complement result. -/
def cnot (n : Nat) : Nat := 65535 ^^^ n

/-! ## Global state -/

/-- The global state touched by `display.c`. -/
structure State where
  /-- The framebuffer `uint8_t DisplayMem[NUMCOLUMNS]`. -/
  DisplayMem : List Nat
  PORTB : Nat
  PORTC : Nat
  PORTD : Nat
  DDRB : Nat
  DDRC : Nat
  DDRD : Nat
  /-- The `static uint8_t column` of `_showMatrix`. -/
  column : Nat
deriving DecidableEq

/-- The read `DisplayMem[i]`; `none` when `i` is outside the array. -/
def readMem (s : State) (i : Int) : Option Nat :=
  if 0 ≤ i then s.DisplayMem[i.toNat]? else none

/-- The store `DisplayMem[i] = v`; `none` when `i` is outside the array. -/
def writeMem (s : State) (i : Int) (v : Nat) : Option State :=
  if 0 ≤ i ∧ i.toNat < s.DisplayMem.length then
    some { s with DisplayMem := s.DisplayMem.set i.toNat v }
  else none

/-- The read `smallbitmap[c][n]`; `none` outside the table. -/
def readGlyph (smallbitmap : GlyphTable) (c n : Nat) : Option Nat :=
  (smallbitmap[c]?).bind fun g => g[n]?

/-- The loop `for (n = 0; n < hi; n++) body(n)` with a fallible body. -/
def forUpTo (hi : Nat) (body : Nat → State → Option State) (s : State) : Option State :=
  (List.range hi).foldlM (fun st n => body n st) s

/-! ## The driver functions -/

/-- `ledOn`: `DDRC|=1; PORTC|=1;` -/
def ledOn (s : State) : State :=
  let s1 := { s with DDRC := u8 (s.DDRC ||| 1) }
  { s1 with PORTC := u8 (s1.PORTC ||| 1) }

/-- `ledOff`: `PORTC&=~1;` -/
def ledOff (s : State) : State :=
  { s with PORTC := u8 (s.PORTC &&& cnot 1) }

/-- `setPixel(x, y, intensity)`. -/
def setPixel (x y intensity : Nat) (s : State) : Option State :=
  if x < NUMCOLUMNS ∧ y < NUMROWS then
    let i : Int := (NUMCOLUMNS : Int) - 1 - (x : Int)
    if intensity > 0 then
      (readMem s i).bind fun v => writeMem s i (u8 (v ||| (1 <<< y)))
    else
      (readMem s i).bind fun v => writeMem s i (u8 (v &&& cnot (1 <<< y)))
  else some s

/-- `cls()`: the loop storing 0 into every entry. -/
def cls (s : State) : Option State :=
  forUpTo NUMCOLUMNS (fun n st => writeMem st (n : Int) 0) s

/-- `printCode(c)`: `cls()`, then for `k` in 0..2 and `n` in 0..NUMROWS-1 the
test `(smallbitmap[c][n]<<k)&0x80` guarding `setPixel(k+SHIFTLEFT,NUMROWS-1-n,1)`. -/
def printCode (smallbitmap : GlyphTable) (c : Nat) (s : State) : Option State :=
  (cls s).bind fun s0 =>
    forUpTo 3 (fun k sk =>
      forUpTo NUMROWS (fun n sn =>
        (readGlyph smallbitmap c n).bind fun b =>
          if (b <<< k) &&& 0x80 ≠ 0 then
            setPixel (u8 (k + SHIFTLEFT)) (toU8 ((NUMROWS : Int) - 1 - (n : Int))) 1 sn
          else some sn) sk) s0

/-- `hex1(x)`. -/
def hex1 (smallbitmap : GlyphTable) (x : Nat) (s : State) : Option State :=
  if x < 10 then printCode smallbitmap x s
  else printCode smallbitmap (x + 3) s

/-- `_putchar(c)` for a signed character `c`.  The local `k` starts
uninitialised (`none`); printing an uninitialised `k` has no defined result. -/
def _putchar (smallbitmap : GlyphTable) (c : Int) (s : State) : Option State :=
  let k0 : Option Nat := none
  let k1 := if 48 ≤ c ∧ c ≤ 57 then some (toU8 (c - 48)) else k0
  let k2 := if 65 ≤ c ∧ c ≤ 90 then some (toU8 (c - 65 + 13)) else k1
  let k3 := if 97 ≤ c ∧ c ≤ 122 then some (toU8 (c - 97 + 13)) else k2
  k3.bind fun k => printCode smallbitmap k s

/-- `showLeds(k)`. -/
def showLeds (k : Nat) (s : State) : Option State :=
  (forUpTo 5 (fun n st =>
      if (k >>> n) &&& 1 ≠ 0 then setPixel 0 (toU8 (4 - (n : Int))) 1 st
      else setPixel 0 (toU8 (4 - (n : Int))) 0 st) s).bind fun s1 =>
  (if (k >>> 5) &&& 1 ≠ 0 then setPixel 1 0 1 s1 else setPixel 1 0 0 s1).bind fun s2 =>
  (if (k >>> 6) &&& 1 ≠ 0 then setPixel 2 0 1 s2 else setPixel 2 0 0 s2).bind fun s3 =>
  some (if (k >>> 7) &&& 1 ≠ 0 then ledOn s3 else ledOff s3)

/-! ## The scan multiplexer -/

/-- Storing a non-negative `int` value into a `uint16_t`. -/
def u16 (n : Nat) : Nat := n % 65536

/-- The write `P |= (1<<b)` on an 8-bit register holding `p`. -/
def setBit (p b : Nat) : Nat := u8 (p ||| (1 <<< b))

/-- The write `P &= ~(1<<b)` on an 8-bit register holding `p`. -/
def clrBit (p b : Nat) : Nat := u8 (p &&& cnot (1 <<< b))

/-- `initDisplay()`: row and column lines as outputs. -/
def initDisplay (s : State) : State :=
  let s1 := { s with DDRD := u8 (
    s.DDRD ||| ((1 <<< 7) ||| (1 <<< 6) ||| (1 <<< 5) ||| (1 <<< 4) ||| (1 <<< 3))) }
  let s2 := { s1 with DDRB := u8 (
    s1.DDRB ||| ((1 <<< 5) ||| (1 <<< 4) ||| (1 <<< 3) ||| (1 <<< 2) ||| (1 <<< 0))) }
  let s3 := { s2 with DDRD := u8 (s2.DDRD ||| (1 <<< 2)) }
  { s3 with DDRC := u8 (s3.DDRC ||| (1 <<< 3)) }

/-- `displayOff()`: row and column lines as inputs. -/
def displayOff (s : State) : State :=
  let s1 := { s with DDRD := u8 (
    s.DDRD &&& cnot ((1 <<< 7) ||| (1 <<< 6) ||| (1 <<< 5) ||| (1 <<< 4) ||| (1 <<< 3))) }
  let s2 := { s1 with DDRB := u8 (
    s1.DDRB &&& cnot ((1 <<< 5) ||| (1 <<< 4) ||| (1 <<< 3) ||| (1 <<< 2) ||| (1 <<< 0))) }
  let s3 := { s2 with DDRD := u8 (s2.DDRD &&& cnot (1 <<< 2)) }
  { s3 with DDRC := u8 (s3.DDRC &&& cnot (1 <<< 3)) }

/-- The last write of `setCol(col)`: the binary decision tree driving one anode high. -/
def setColSelect (col : Nat) (s : State) : State :=
  if col > 2 then
    if col > 4 then
      if col = 6 then { s with PORTD := setBit s.PORTD 2 }
      else { s with PORTC := setBit s.PORTC 3 }
    else
      if col = 4 then { s with PORTB := setBit s.PORTB 5 }
      else { s with PORTB := setBit s.PORTB 4 }
  else
    if col = 2 then { s with PORTB := setBit s.PORTB 3 }
    else if col = 1 then { s with PORTB := setBit s.PORTB 2 }
    else { s with PORTB := setBit s.PORTB 0 }

/-- `setCol(col)`: the seven clearing writes, then the decision tree. -/
def setCol (col : Nat) (s : State) : State :=
  let s1 := { s with PORTD := clrBit s.PORTD 2 }
  let s2 := { s1 with PORTC := clrBit s1.PORTC 3 }
  let s3 := { s2 with PORTB := clrBit s2.PORTB 5 }
  let s4 := { s3 with PORTB := clrBit s3.PORTB 4 }
  let s5 := { s4 with PORTB := clrBit s4.PORTB 3 }
  let s6 := { s5 with PORTB := clrBit s5.PORTB 2 }
  let s7 := { s6 with PORTB := clrBit s6.PORTB 0 }
  setColSelect col s7

/-- The macro `ROWSOFF()`: `PORTD|=(1<<7)|(1<<6)|(1<<5)|(1<<4)|(1<<3);` -/
def ROWSOFF (s : State) : State :=
  { s with PORTD := u8 (
    s.PORTD ||| ((1 <<< 7) ||| (1 <<< 6) ||| (1 <<< 5) ||| (1 <<< 4) ||| (1 <<< 3))) }

/-- `setRowPattern(bitPattern)`: `PORTD|=0b11111000; PORTD&=~(bitPattern<<3);` -/
def setRowPattern (bitPattern : Nat) (s : State) : State :=
  let s1 := { s with PORTD := u8 (s.PORTD ||| 0b11111000) }
  { s1 with PORTD := u8 (s1.PORTD &&& cnot (bitPattern <<< 3)) }

/-- `_showMatrix()`: one scan tick.  The static local `column` is the field
`State.column`. -/
def _showMatrix (s : State) : Option State :=
  let s1 := ROWSOFF s
  let s2 := setCol s1.column s1
  (readMem s2 (s2.column : Int)).bind fun pattern =>
    let s3 := setRowPattern pattern s2
    let s4 := { s3 with column := u8 (s3.column + 1) }
    some (if s4.column ≥ NUMCOLUMNS then { s4 with column := 0 } else s4)

/-- The loop `for(n=0;n<ms;n++) { _showMatrix(); _delay_ms(1); }` of `showMatrix`
with its 16-bit counter `n`; the delay changes no state.  The first argument bounds the
number of loop tests, `none` once it is used up. -/
def showMatrixLoop (ms : Nat) : Nat → Nat → State → Option State
  | 0, _, _ => none
  | fuel + 1, n, s =>
    if n < ms then
      (_showMatrix s).bind fun s1 => showMatrixLoop ms fuel (u16 (n + 1)) s1
    else some s

/-- `showMatrix(ms)`: `initDisplay()`, the loop, `displayOff()`. -/
def showMatrix (fuel ms : Nat) (s : State) : Option State :=
  (showMatrixLoop ms fuel 0 (initDisplay s)).map displayOff

/-! ## Vocabulary of the statements -/

/-- The framebuffer is a well-formed `uint8_t[NUMCOLUMNS]`: it has `NUMCOLUMNS`
entries and each of them is a byte. -/
def memOK (s : State) : Prop :=
  s.DisplayMem.length = NUMCOLUMNS ∧ ∀ v ∈ s.DisplayMem, v < 256

instance (s : State) : Decidable (memOK s) := by
  unfold memOK; infer_instance

/-- Bit `b` of the framebuffer entry `DisplayMem[i]`. -/
def memBit (s : State) (i b : Nat) : Bool :=
  (s.DisplayMem.getD i 0).testBit b

/-- Index `c` selects a glyph of the table: a bitmap of 5 bytes. -/
def validGlyph (smallbitmap : GlyphTable) (c : Nat) : Prop :=
  match smallbitmap[c]? with
  | some g => g.length = 5 ∧ ∀ b ∈ g, b < 256
  | none => False

instance (smallbitmap : GlyphTable) (c : Nat) : Decidable (validGlyph smallbitmap c) := by
  unfold validGlyph; split <;> infer_instance

/-- Byte `n` of glyph `c` (0 outside the table); only used in statements. -/
def glyphByte (smallbitmap : GlyphTable) (c n : Nat) : Nat :=
  ((smallbitmap.getD c []).getD n 0)

/-- The value `setPixel` stores into the addressed entry holding `v`. -/
def pixelValue (y intensity v : Nat) : Nat :=
  if intensity > 0 then u8 (v ||| (1 <<< y)) else u8 (v &&& cnot (1 <<< y))

/-- The state after `n` consecutive scan ticks. -/
def ticks : Nat → State → Option State
  | 0, s => some s
  | n + 1, s => (_showMatrix s).bind (ticks n)

/-- The level of the anode line of column `j`: PORTB bits 0, 2, 3, 4, 5 for columns
0..4, PORTC bit 3 for column 5, PORTD bit 2 for column 6 (the lines `setCol` drives). -/
def colLine (s : State) (j : Nat) : Bool :=
  match j with
  | 0 => s.PORTB.testBit 0
  | 1 => s.PORTB.testBit 2
  | 2 => s.PORTB.testBit 3
  | 3 => s.PORTB.testBit 4
  | 4 => s.PORTB.testBit 5
  | 5 => s.PORTC.testBit 3
  | 6 => s.PORTD.testBit 2
  | _ => false

/-- The level of the cathode line of row `r`: PORTD bit `3 + r`. -/
def rowLine (s : State) (r : Nat) : Bool := s.PORTD.testBit (3 + r)

/-- At most one anode line is high. -/
def atMostOneCol (s : State) : Prop :=
  ∀ i j, i < NUMCOLUMNS → j < NUMCOLUMNS → colLine s i = true → colLine s j = true → i = j

/-- The first port writes of a scan tick, in program order: `ROWSOFF`, then the seven
clearing writes of `setCol`. -/
def blankingWrites : List (State → State) :=
  [ ROWSOFF,
    fun s => { s with PORTD := clrBit s.PORTD 2 },
    fun s => { s with PORTC := clrBit s.PORTC 3 },
    fun s => { s with PORTB := clrBit s.PORTB 5 },
    fun s => { s with PORTB := clrBit s.PORTB 4 },
    fun s => { s with PORTB := clrBit s.PORTB 3 },
    fun s => { s with PORTB := clrBit s.PORTB 2 },
    fun s => { s with PORTB := clrBit s.PORTB 0 } ]

/-- The individual port writes of one scan tick showing column `col` with row pattern
`pattern`, in program order: `ROWSOFF` and the seven clearing writes of `setCol`, the
selecting write of `setCol`, the two writes of `setRowPattern`. -/
def tickWrites (col pattern : Nat) : List (State → State) :=
  blankingWrites ++
  [ setColSelect col,
    fun s => { s with PORTD := u8 (s.PORTD ||| 0b11111000) },
    fun s => { s with PORTD := u8 (s.PORTD &&& cnot (pattern <<< 3)) } ]

/-- The states after each write of a list of writes. -/
def runWrites : List (State → State) → State → List State
  | [], _ => []
  | w :: ws, s => w s :: runWrites ws (w s)

/-- The port states a scan tick passes through, one per port write; `none` when the
framebuffer read of the tick is out of bounds. -/
def tickTrace (s : State) : Option (List State) :=
  (readMem s (s.column : Int)).map fun pattern => runWrites (tickWrites s.column pattern) s

/-- The state at program start: zero-initialised globals (`DisplayMem`, `column`) and
registers at their reset value 0. -/
def initialState : State :=
  { DisplayMem := [0, 0, 0, 0, 0, 0, 0],
    PORTB := 0, PORTC := 0, PORTD := 0, DDRB := 0, DDRC := 0, DDRD := 0, column := 0 }

/-- Row-bit invariant of the framebuffer: 7 entries, each below `2 ^ NUMROWS`. -/
def rowInv (s : State) : Prop :=
  s.DisplayMem.length = NUMCOLUMNS ∧ ∀ v ∈ s.DisplayMem, v < 2 ^ NUMROWS

instance (s : State) : Decidable (rowInv s) := by
  unfold rowInv; infer_instance

/-- A sample state in the middle of a scan: column 3 lit, cursor 4. -/
def scanState : State :=
  { DisplayMem := [0x1F, 0x00, 0x15, 0x0A, 0x11, 0x01, 0x1F],
    PORTB := 0x10, PORTC := 0x01, PORTD := 0xAB, DDRB := 0x3D, DDRC := 0x09, DDRD := 0xFC,
    column := 4 }

/-- A sample state: a framebuffer with arbitrary bytes, scan cursor 0. -/
def sampleState : State :=
  { DisplayMem := [0x1F, 0x00, 0x15, 0x0A, 0x11, 0x01, 0x1F],
    PORTB := 0, PORTC := 0, PORTD := 0, DDRB := 0, DDRC := 0, DDRD := 0, column := 0 }

/-- A sample glyph table with 39 glyphs of 5 bytes each (digits, three reserved
entries, letters); the bytes are arbitrary test patterns. -/
def sampleFont : GlyphTable :=
  (List.range 39).map fun i => [0xE0, 0xA0, (37 * i + 64) % 256, 0x20, (101 * i) % 256]

example : setPixel 0 0 0 sampleState =
    some { sampleState with DisplayMem := [0x1F, 0x00, 0x15, 0x0A, 0x11, 0x01, 0x1E] } := by
  decide

example : setPixel 6 4 1 { sampleState with DisplayMem := [0, 0, 0, 0, 0, 0, 0] } =
    some { sampleState with DisplayMem := [16, 0, 0, 0, 0, 0, 0] } := by
  decide

example : setPixel 7 0 1 sampleState = some sampleState := by decide

example : cls sampleState = some { sampleState with DisplayMem := [0, 0, 0, 0, 0, 0, 0] } := by
  decide

example : printCode sampleFont 13 sampleState =
    some { sampleState with DisplayMem := [0x1F, 0x10, 0x18, 0, 0, 0, 0] } := by
  decide

example : _putchar sampleFont 97 sampleState = printCode sampleFont 13 sampleState := by
  decide

example : _putchar sampleFont 42 sampleState = none := by decide

example : hex1 sampleFont 11 sampleState = printCode sampleFont 14 sampleState := by decide

example : (showLeds 0x81 sampleState).map State.DisplayMem =
    some [0x1F, 0x00, 0x15, 0x0A, 0x10, 0x00, 0x10] := by
  decide

example : _showMatrix scanState =
    some { scanState with PORTB := 0x20, PORTD := 0x73, column := 5 } := by
  decide

example : _showMatrix { scanState with column := 6 } =
    some { scanState with PORTB := 0, PORTD := 0x07, column := 0 } := by
  decide

example : _showMatrix { scanState with column := 7 } = none := by decide

example : showMatrix 4 3 scanState =
    some { scanState with PORTB := 0, PORTC := 0x01, PORTD := 0x07, DDRB := 0, DDRC := 0x01,
                          DDRD := 0, column := 0 } := by
  decide

example : showMatrix 3 3 scanState = none := by decide

example : (tickTrace scanState).map (fun tr => tr.map fun t => (t.PORTB, t.PORTC, t.PORTD)) =
    some [(0x10, 0x01, 0xFB), (0x10, 0x01, 0xFB), (0x10, 0x01, 0xFB), (0x10, 0x01, 0xFB),
      (0x00, 0x01, 0xFB), (0x00, 0x01, 0xFB), (0x00, 0x01, 0xFB), (0x00, 0x01, 0xFB),
      (0x20, 0x01, 0xFB), (0x20, 0x01, 0xFB), (0x20, 0x01, 0x73)] := by
  decide

/-! ## Bit-level lemmas -/

theorem testBit_cnot (n b : Nat) :
    (cnot n).testBit b = (decide (b < 16) ^^ n.testBit b) := by
  have h : (65535 : Nat) = 2 ^ 16 - 1 := by norm_num
  unfold cnot
  rw [Nat.testBit_xor, h, Nat.testBit_two_pow_sub_one]

theorem testBit_one_shl (y b : Nat) : (1 <<< y).testBit b = decide (y = b) := by
  rw [Nat.one_shiftLeft, Nat.testBit_two_pow]

theorem testBit_byte_high {v b : Nat} (hv : v < 256) (hb : 8 ≤ b) : v.testBit b = false := by
  apply Nat.testBit_lt_two_pow
  calc v < 2 ^ 8 := by simpa using hv
    _ ≤ 2 ^ b := Nat.pow_le_pow_right (by norm_num) hb

theorem testBit_u8 (n b : Nat) : (u8 n).testBit b = (decide (b < 8) && n.testBit b) := by
  have h : (256 : Nat) = 2 ^ 8 := by norm_num
  unfold u8
  rw [h, Nat.testBit_mod_two_pow]

theorem u8_lt (n : Nat) : u8 n < 256 := Nat.mod_lt _ (by norm_num)

/-! ## Framebuffer lemmas -/

theorem memOK_getD_lt {s : State} (hs : memOK s) (i : Nat) : s.DisplayMem.getD i 0 < 256 := by
  by_cases hi : i < s.DisplayMem.length
  · rw [List.getD_eq_getElem _ _ hi]
    exact hs.2 _ (List.getElem_mem _)
  · rw [List.getD_eq_default _ _ (by omega)]
    norm_num

theorem memOK_set {s : State} (hs : memOK s) (i v : Nat) (hv : v < 256) :
    memOK { s with DisplayMem := s.DisplayMem.set i v } := by
  refine ⟨by simpa using hs.1, ?_⟩
  intro w hw
  rcases List.mem_or_eq_of_mem_set hw with h | h
  · exact hs.2 w h
  · exact h ▸ hv

/-- Two well-formed framebuffers with the same bits are equal. -/
theorem mem_eq_of_memBit {s t : State} (hs : s.DisplayMem.length = NUMCOLUMNS)
    (ht : t.DisplayMem.length = NUMCOLUMNS)
    (h : ∀ i b, i < NUMCOLUMNS → memBit s i b = memBit t i b) :
    s.DisplayMem = t.DisplayMem := by
  apply List.ext_getElem (by rw [hs, ht])
  intro i h1 h2
  apply Nat.eq_of_testBit_eq
  intro b
  have := h i b (by omega)
  unfold memBit at this
  rwa [List.getD_eq_getElem _ _ h1, List.getD_eq_getElem _ _ h2] at this

theorem setPixel_eq_len {s : State} (x y i : Nat) (hs : s.DisplayMem.length = NUMCOLUMNS)
    (hx : x < NUMCOLUMNS) (hy : y < NUMROWS) :
    setPixel x y i s = some { s with
      DisplayMem := (s.DisplayMem.set (6 - x) (pixelValue y i (s.DisplayMem.getD (6 - x) 0))) } := by
  have hlen := hs
  simp only [NUMCOLUMNS] at hx hlen
  have hidx : ((NUMCOLUMNS : Nat) : Int) - 1 - (x : Int) = ((6 - x : Nat) : Int) := by
    simp only [NUMCOLUMNS]; omega
  have hlt : 6 - x < s.DisplayMem.length := by omega
  unfold setPixel
  rw [if_pos ⟨by simpa [NUMCOLUMNS] using hx, hy⟩]
  simp only [hidx, readMem, writeMem, pixelValue]
  by_cases hi : i > 0 <;>
    simp [hi, hlt, List.getD_eq_getElem _ _ hlt, List.getElem?_eq_getElem hlt]

theorem setPixel_eq {s : State} (x y i : Nat) (hs : memOK s)
    (hx : x < NUMCOLUMNS) (hy : y < NUMROWS) :
    setPixel x y i s = some { s with
      DisplayMem := (s.DisplayMem.set (6 - x) (pixelValue y i (s.DisplayMem.getD (6 - x) 0))) } :=
  setPixel_eq_len x y i hs.1 hx hy

theorem testBit_pixelValue {v : Nat} (hv : v < 256) (y i b : Nat) (hy : y < NUMROWS) :
    (pixelValue y i v).testBit b = if b = y then decide (i > 0) else v.testBit b := by
  simp only [NUMROWS] at hy
  unfold pixelValue
  by_cases hi : i > 0
  · rw [if_pos hi, testBit_u8, Nat.testBit_or, testBit_one_shl]
    by_cases hb : b = y
    · subst hb
      have : b < 8 := by omega
      simp [hi, this]
    · by_cases h8 : b < 8
      · simp [hb, h8, Ne.symm hb]
      · simp [hb, h8, testBit_byte_high hv (by omega : 8 ≤ b)]
  · rw [if_neg hi, testBit_u8, Nat.testBit_and, testBit_cnot, testBit_one_shl]
    by_cases hb : b = y
    · subst hb
      have : b < 16 := by omega
      simp [hi, this]
    · by_cases h8 : b < 8
      · have : b < 16 := by omega
        simp [hb, h8, this, Ne.symm hb]
      · simp [hb, h8, testBit_byte_high hv (by omega : 8 ≤ b)]

theorem pixelValue_lt (y i v : Nat) : pixelValue y i v < 256 := by
  unfold pixelValue
  split <;> exact u8_lt _

/-- Effect of an in-range `setPixel` on a well-formed framebuffer, bit by bit. -/
theorem setPixel_spec {s : State} (x y i : Nat) (hs : memOK s)
    (hx : x < NUMCOLUMNS) (hy : y < NUMROWS) :
    ∃ s', setPixel x y i s = some s' ∧ memOK s' ∧
      s' = { s with DisplayMem := s'.DisplayMem } ∧
      ∀ c b, memBit s' c b =
        if c = NUMCOLUMNS - 1 - x ∧ b = y then decide (i > 0) else memBit s c b := by
  refine ⟨_, setPixel_eq x y i hs hx hy, memOK_set hs _ _ (pixelValue_lt _ _ _), rfl, ?_⟩
  intro c b
  have hlen := hs.1
  simp only [NUMCOLUMNS] at hx hlen ⊢
  have hlt : 6 - x < s.DisplayMem.length := by omega
  simp only [memBit]
  by_cases hc : c = 6 - x
  · subst hc
    have h1 : (s.DisplayMem.set (6 - x) (pixelValue y i (s.DisplayMem.getD (6 - x) 0))).getD
        (6 - x) 0 = pixelValue y i (s.DisplayMem.getD (6 - x) 0) := by
      simp [List.getD_eq_getElem?_getD, hlt]
    rw [h1, testBit_pixelValue (memOK_getD_lt hs _) y i b hy]
    by_cases hb : b = y <;> simp [hb]
  · have h1 : (s.DisplayMem.set (6 - x) (pixelValue y i (s.DisplayMem.getD (6 - x) 0))).getD
        c 0 = s.DisplayMem.getD c 0 := by
      simp [List.getD_eq_getElem?_getD, List.getElem?_set, Ne.symm hc]
    rw [h1]
    simp [hc]

theorem state_eq_of_mem {s t : State} (h : t = { s with DisplayMem := t.DisplayMem })
    (hm : t.DisplayMem = s.DisplayMem) : t = s := by
  rw [h, hm]

theorem list7 {l : List Nat} (h : l.length = 7) :
    ∃ a0 a1 a2 a3 a4 a5 a6, l = [a0, a1, a2, a3, a4, a5, a6] := by
  match l, h with
  | [a0, a1, a2, a3, a4, a5, a6], _ => exact ⟨a0, a1, a2, a3, a4, a5, a6, rfl⟩

theorem cls_eq {s : State} (hs : s.DisplayMem.length = NUMCOLUMNS) :
    cls s = some { s with DisplayMem := [0, 0, 0, 0, 0, 0, 0] } := by
  obtain ⟨a0, a1, a2, a3, a4, a5, a6, hl⟩ := list7 hs
  cases s
  simp only at hl
  subst hl
  simp [cls, forUpTo, NUMCOLUMNS, List.range_succ, writeMem]

/-- When the guard of `setPixel` fails the state is returned as it is. -/
theorem setPixel_guard_fails (s : State) (x y i : Nat)
    (h : ¬ (x < NUMCOLUMNS ∧ y < NUMROWS)) : setPixel x y i s = some s := by
  unfold setPixel
  rw [if_neg h]

/-! ## Claims on `setPixel` and `cls` -/

/-- C1: with NUMCOLUMNS = 7 and NUMROWS = 5, for every well-formed framebuffer, every
`x < 7`, `y < 5` and every intensity, `setPixel x y intensity` returns and changes
only bit `y` of entry `DisplayMem[6 - x]`: that bit becomes 1 when the intensity is
non-zero and 0 when it is 0; every other bit of every entry, and every register, is
unchanged. -/
theorem setPixel_writes_mirrored_bit (s : State) (x y intensity : Nat) (hs : memOK s)
    (hx : x < 7) (hy : y < 5) :
    ∃ s', setPixel x y intensity s = some s' ∧
      s'.DisplayMem.length = 7 ∧
      s' = { s with DisplayMem := s'.DisplayMem } ∧
      memBit s' (6 - x) y = decide (intensity > 0) ∧
      (∀ b, b ≠ y → memBit s' (6 - x) b = memBit s (6 - x) b) ∧
      (∀ i b, i ≠ 6 - x → memBit s' i b = memBit s i b) ∧
      (∀ i, i ≠ 6 - x → s'.DisplayMem[i]? = s.DisplayMem[i]?) := by
  obtain ⟨s', h1, h2, h3, h4⟩ := setPixel_spec x y intensity hs hx hy
  simp only [NUMCOLUMNS] at h4
  refine ⟨s', h1, h2.1, h3, ?_, ?_, ?_, ?_⟩
  · simpa using h4 (6 - x) y
  · intro b hb
    simpa [hb] using h4 (6 - x) b
  · intro i b hi
    simpa [hi] using h4 i b
  · intro i hi
    rw [setPixel_eq x y intensity hs hx hy] at h1
    cases h1
    simp [List.getElem?_set, Ne.symm hi]

theorem setPixel_writes_mirrored_bit_witness :
    memOK sampleState ∧ 2 < 7 ∧ 3 < 5 ∧
    ∃ s', setPixel 2 3 1 sampleState = some s' ∧
      s'.DisplayMem.length = 7 ∧
      s' = { sampleState with DisplayMem := s'.DisplayMem } ∧
      memBit s' (6 - 2) 3 = decide (1 > 0) ∧
      (∀ b, b ≠ 3 → memBit s' (6 - 2) b = memBit sampleState (6 - 2) b) ∧
      (∀ i b, i ≠ 6 - 2 → memBit s' i b = memBit sampleState i b) ∧
      (∀ i, i ≠ 6 - 2 → s'.DisplayMem[i]? = sampleState.DisplayMem[i]?) :=
  ⟨by decide, by decide, by decide,
    setPixel_writes_mirrored_bit sampleState 2 3 1 (by decide) (by decide) (by decide)⟩

/-- C2: for every state, every intensity and all coordinates with `x ≥ NUMCOLUMNS` or
`y ≥ NUMROWS`, `setPixel` returns normally and leaves the whole state, hence all
framebuffer entries, unchanged. -/
theorem setPixel_out_of_range_noop (s : State) (x y intensity : Nat)
    (h : NUMCOLUMNS ≤ x ∨ NUMROWS ≤ y) :
    setPixel x y intensity s = some s := by
  unfold setPixel
  rw [if_neg]
  omega

theorem setPixel_out_of_range_noop_witness :
    (NUMCOLUMNS ≤ 7 ∨ NUMROWS ≤ 0) ∧ setPixel 7 0 1 sampleState = some sampleState ∧
    (NUMCOLUMNS ≤ 255 ∨ NUMROWS ≤ 255) ∧ setPixel 255 255 1 sampleState = some sampleState :=
  ⟨by decide, setPixel_out_of_range_noop sampleState 7 0 1 (by decide),
   by decide, setPixel_out_of_range_noop sampleState 255 255 1 (by decide)⟩

/-- C3, as stated, fails: in `sampleState` the pixel (0, 0) (bit 0 of `DisplayMem[6]`) is
lit; `setPixel 0 0 1` followed by `setPixel 0 0 0` leaves it dark, so the framebuffer
after the pair differs from the framebuffer before it. -/
theorem setPixel_on_off_changes_lit_pixel :
    memOK sampleState ∧ memBit sampleState 6 0 = true ∧
    (setPixel 0 0 1 sampleState).bind (setPixel 0 0 0) =
      some { sampleState with DisplayMem := [0x1F, 0x00, 0x15, 0x0A, 0x11, 0x01, 0x1E] } ∧
    memBit { sampleState with DisplayMem := [0x1F, 0x00, 0x15, 0x0A, 0x11, 0x01, 0x1E] } 6 0
      = false ∧
    ({ sampleState with DisplayMem := [0x1F, 0x00, 0x15, 0x0A, 0x11, 0x01, 0x1E] } : State)
      ≠ sampleState := by
  decide

/-- C3, amended: for every well-formed framebuffer and every in-range coordinate,
`setPixel x y 1` followed by `setPixel x y 0` returns, leaves bit `y` of
`DisplayMem[6 - x]` clear and every other framebuffer bit and every register as before;
the state after the pair equals the state before it exactly when that bit was clear
before the two calls. -/
theorem setPixel_on_off (s : State) (x y : Nat) (hs : memOK s) (hx : x < 7) (hy : y < 5) :
    ∃ s1 s2, setPixel x y 1 s = some s1 ∧ setPixel x y 0 s1 = some s2 ∧
      memBit s2 (6 - x) y = false ∧
      (∀ i b, ¬ (i = 6 - x ∧ b = y) → memBit s2 i b = memBit s i b) ∧
      s2 = { s with DisplayMem := s2.DisplayMem } ∧
      (s2 = s ↔ memBit s (6 - x) y = false) := by
  obtain ⟨s1, h1, ok1, f1, b1⟩ := setPixel_spec x y 1 hs hx hy
  obtain ⟨s2, h2, ok2, f2, b2⟩ := setPixel_spec x y 0 ok1 hx hy
  simp only [NUMCOLUMNS] at b1 b2
  have hbit : memBit s2 (6 - x) y = false := by simpa using b2 (6 - x) y
  have hother : ∀ i b, ¬ (i = 6 - x ∧ b = y) → memBit s2 i b = memBit s i b := by
    intro i b hne
    rw [b2 i b, if_neg hne, b1 i b, if_neg hne]
  have hframe : s2 = { s with DisplayMem := s2.DisplayMem } := by
    rw [f2, f1]
  refine ⟨s1, s2, h1, h2, hbit, hother, hframe, ?_⟩
  constructor
  · intro h
    rw [← h]
    exact hbit
  · intro h
    apply state_eq_of_mem hframe
    apply mem_eq_of_memBit ok2.1 hs.1
    intro i b _
    by_cases hib : i = 6 - x ∧ b = y
    · rw [hib.1, hib.2, hbit, h]
    · exact hother i b hib

theorem setPixel_on_off_witness :
    memOK sampleState ∧ 5 < 7 ∧ 1 < 5 ∧
    ∃ s1 s2, setPixel 5 1 1 sampleState = some s1 ∧ setPixel 5 1 0 s1 = some s2 ∧
      memBit s2 (6 - 5) 1 = false ∧
      (∀ i b, ¬ (i = 6 - 5 ∧ b = 1) → memBit s2 i b = memBit sampleState i b) ∧
      s2 = { sampleState with DisplayMem := s2.DisplayMem } ∧
      (s2 = sampleState ↔ memBit sampleState (6 - 5) 1 = false) :=
  ⟨by decide, by decide, by decide,
    setPixel_on_off sampleState 5 1 (by decide) (by decide) (by decide)⟩

/-- C4: `setPixel` is idempotent: for every well-formed framebuffer and all `x`, `y`,
`intensity` (in range or not), `setPixel x y intensity` returns a state on which a
second `setPixel x y intensity` returns that same state. -/
theorem setPixel_idempotent (s : State) (x y intensity : Nat) (hs : memOK s) :
    ∃ s1, setPixel x y intensity s = some s1 ∧ setPixel x y intensity s1 = some s1 := by
  by_cases hr : x < NUMCOLUMNS ∧ y < NUMROWS
  · obtain ⟨s1, h1, ok1, _, b1⟩ := setPixel_spec x y intensity hs hr.1 hr.2
    obtain ⟨s2, h2, ok2, f2, b2⟩ := setPixel_spec x y intensity ok1 hr.1 hr.2
    refine ⟨s1, h1, ?_⟩
    rw [h2]
    congr 1
    apply state_eq_of_mem f2
    apply mem_eq_of_memBit ok2.1 ok1.1
    intro i b _
    rw [b2 i b, b1 i b]
    split <;> rfl
  · exact ⟨s, setPixel_guard_fails s x y intensity hr, setPixel_guard_fails s x y intensity hr⟩

theorem setPixel_idempotent_witness :
    memOK sampleState ∧
    (∃ s1, setPixel 3 2 1 sampleState = some s1 ∧ setPixel 3 2 1 s1 = some s1) ∧
    (∃ s1, setPixel 0 4 0 sampleState = some s1 ∧ setPixel 0 4 0 s1 = some s1) :=
  ⟨by decide, setPixel_idempotent sampleState 3 2 1 (by decide),
    setPixel_idempotent sampleState 0 4 0 (by decide)⟩

/-- C5: for every prior state whose framebuffer has NUMCOLUMNS = 7 entries, `cls` returns
and afterwards every one of the entries `DisplayMem[0..6]` equals 0; the registers are
unchanged. -/
theorem cls_zeroes_all_columns (s : State) (hs : s.DisplayMem.length = NUMCOLUMNS) :
    ∃ s', cls s = some s' ∧ s'.DisplayMem.length = NUMCOLUMNS ∧
      (∀ i, i < NUMCOLUMNS → s'.DisplayMem[i]? = some 0) ∧
      s' = { s with DisplayMem := s'.DisplayMem } := by
  refine ⟨_, cls_eq hs, rfl, ?_, rfl⟩
  intro i hi
  simp only [NUMCOLUMNS] at hi
  interval_cases i <;> rfl

theorem cls_zeroes_all_columns_witness :
    sampleState.DisplayMem.length = NUMCOLUMNS ∧
    ∃ s', cls sampleState = some s' ∧ s'.DisplayMem.length = NUMCOLUMNS ∧
      (∀ i, i < NUMCOLUMNS → s'.DisplayMem[i]? = some 0) ∧
      s' = { sampleState with DisplayMem := s'.DisplayMem } :=
  ⟨by decide, cls_zeroes_all_columns sampleState (by decide)⟩

/-! ## The glyph renderer -/

theorem and_128_ne_zero (x : Nat) : x &&& 0x80 ≠ 0 ↔ x.testBit 7 = true := by
  have h : (0x80 : Nat) = 2 ^ 7 := by norm_num
  rw [h]
  constructor
  · intro hne
    by_contra hb
    apply hne
    apply Nat.eq_of_testBit_eq
    intro i
    rw [Nat.testBit_and, Nat.testBit_two_pow, Nat.zero_testBit]
    by_cases hi : 7 = i
    · subst hi
      simp [hb]
    · simp [hi]
  · intro hb hz
    have h7 : (x &&& 2 ^ 7).testBit 7 = true := by
      rw [Nat.testBit_and, Nat.testBit_two_pow, hb]
      rfl
    rw [hz, Nat.zero_testBit] at h7
    exact Bool.false_ne_true h7

theorem shifted_top_bit (b k : Nat) (hk : k < 3) :
    (b <<< k) &&& 0x80 ≠ 0 ↔ b.testBit (7 - k) = true := by
  rw [and_128_ne_zero, Nat.testBit_shiftLeft]
  have : 7 ≥ k := by omega
  simp [this]

theorem readGlyph_valid {tbl : GlyphTable} {c : Nat} (hg : validGlyph tbl c) (n : Nat)
    (hn : n < 5) : readGlyph tbl c n = some (glyphByte tbl c n) := by
  unfold validGlyph at hg
  unfold readGlyph glyphByte
  cases hc : tbl[c]? with
  | none => simp [hc] at hg
  | some g =>
    simp only [hc] at hg
    have hlt : n < g.length := by omega
    simp [List.getD_eq_getElem?_getD, hc, List.getElem?_eq_getElem hlt]

/-- One guarded `setPixel` of the inner loop of `printCode`. -/
theorem printCode_step {tbl : GlyphTable} {c : Nat} (hg : validGlyph tbl c) (k n : Nat)
    (hk : k < 3) (hn : n < 5) {s : State} (hs : memOK s) :
    ∃ s', ((readGlyph tbl c n).bind fun b =>
        if (b <<< k) &&& 0x80 ≠ 0 then
          setPixel (u8 (k + SHIFTLEFT)) (toU8 ((NUMROWS : Int) - 1 - (n : Int))) 1 s
        else some s) = some s' ∧ memOK s' ∧
      s' = { s with DisplayMem := s'.DisplayMem } ∧
      ∀ i b, memBit s' i b = (memBit s i b ||
        (decide (i = 2 - k) && (decide (b = 4 - n) && (glyphByte tbl c n).testBit (7 - k)))) := by
  have hx : u8 (k + SHIFTLEFT) = k + 4 := by
    unfold u8 SHIFTLEFT; omega
  have hy : toU8 ((NUMROWS : Int) - 1 - (n : Int)) = 4 - n := by
    unfold toU8 NUMROWS; omega
  rw [readGlyph_valid hg n hn, Option.some_bind, hx, hy]
  by_cases hb : (glyphByte tbl c n).testBit (7 - k) = true
  · rw [if_pos ((shifted_top_bit _ _ hk).2 hb)]
    obtain ⟨s', h1, ok, f, b1⟩ := setPixel_spec (k + 4) (4 - n) 1 hs
      (by unfold NUMCOLUMNS; omega) (by unfold NUMROWS; omega)
    refine ⟨s', h1, ok, f, ?_⟩
    intro i b
    rw [b1 i b, hb]
    have hidx : NUMCOLUMNS - 1 - (k + 4) = 2 - k := by unfold NUMCOLUMNS; omega
    rw [hidx]
    by_cases h : i = 2 - k ∧ b = 4 - n
    · simp [h.1, h.2]
    · rw [if_neg h]
      by_cases hi : i = 2 - k
      · have hb2 : ¬ b = 4 - n := fun e => h ⟨hi, e⟩
        simp [hb2]
      · simp [hi]
  · rw [if_neg (fun h => hb ((shifted_top_bit _ _ hk).1 h))]
    refine ⟨s, rfl, hs, rfl, ?_⟩
    intro i b
    simp [hb]

/-- The inner loop of `printCode` over a list of glyph rows. -/
theorem printCode_rows {tbl : GlyphTable} {c : Nat} (hg : validGlyph tbl c) (k : Nat)
    (hk : k < 3) (ns : List Nat) (hns : ∀ n ∈ ns, n < 5) (s : State) (hs : memOK s) :
    ∃ s', ns.foldlM (fun sn n => (readGlyph tbl c n).bind fun b =>
        if (b <<< k) &&& 0x80 ≠ 0 then
          setPixel (u8 (k + SHIFTLEFT)) (toU8 ((NUMROWS : Int) - 1 - (n : Int))) 1 sn
        else some sn) s = some s' ∧ memOK s' ∧
      s' = { s with DisplayMem := s'.DisplayMem } ∧
      ∀ i b, memBit s' i b = (memBit s i b ||
        (decide (i = 2 - k) &&
          ns.any fun n => decide (b = 4 - n) && (glyphByte tbl c n).testBit (7 - k))) := by
  induction ns generalizing s with
  | nil => exact ⟨s, rfl, hs, rfl, by simp⟩
  | cons n ns ih =>
    obtain ⟨s1, h1, ok1, f1, b1⟩ :=
      printCode_step hg k n hk (hns n (List.mem_cons_self _ _)) hs
    obtain ⟨s2, h2, ok2, f2, b2⟩ :=
      ih (fun m hm => hns m (List.mem_cons_of_mem _ hm)) s1 ok1
    refine ⟨s2, ?_, ok2, ?_, ?_⟩
    · rw [List.foldlM_cons, h1]
      exact h2
    · rw [f2, f1]
    · intro i b
      rw [b2 i b, b1 i b, List.any_cons]
      cases memBit s i b <;> cases decide (i = 2 - k) <;> simp

/-- The outer loop of `printCode` over a list of sub-columns. -/
theorem printCode_cols {tbl : GlyphTable} {c : Nat} (hg : validGlyph tbl c)
    (ks : List Nat) (hks : ∀ k ∈ ks, k < 3) (s : State) (hs : memOK s) :
    ∃ s', ks.foldlM (fun sk k => forUpTo NUMROWS (fun n sn =>
        (readGlyph tbl c n).bind fun b =>
          if (b <<< k) &&& 0x80 ≠ 0 then
            setPixel (u8 (k + SHIFTLEFT)) (toU8 ((NUMROWS : Int) - 1 - (n : Int))) 1 sn
          else some sn) sk) s = some s' ∧ memOK s' ∧
      s' = { s with DisplayMem := s'.DisplayMem } ∧
      ∀ i b, memBit s' i b = (memBit s i b ||
        ks.any fun k => decide (i = 2 - k) &&
          (List.range 5).any fun n =>
            decide (b = 4 - n) && (glyphByte tbl c n).testBit (7 - k)) := by
  induction ks generalizing s with
  | nil => exact ⟨s, rfl, hs, rfl, by simp⟩
  | cons k ks ih =>
    obtain ⟨s1, h1, ok1, f1, b1⟩ := printCode_rows hg k (hks k (List.mem_cons_self _ _))
      (List.range 5) (fun n hn => List.mem_range.1 hn) s hs
    obtain ⟨s2, h2, ok2, f2, b2⟩ :=
      ih (fun m hm => hks m (List.mem_cons_of_mem _ hm)) s1 ok1
    refine ⟨s2, ?_, ok2, ?_, ?_⟩
    · rw [List.foldlM_cons]
      have : forUpTo NUMROWS (fun n sn =>
          (readGlyph tbl c n).bind fun b =>
            if (b <<< k) &&& 0x80 ≠ 0 then
              setPixel (u8 (k + SHIFTLEFT)) (toU8 ((NUMROWS : Int) - 1 - (n : Int))) 1 sn
            else some sn) s = some s1 := h1
      rw [this]
      exact h2
    · rw [f2, f1]
    · intro i b
      rw [b2 i b, b1 i b, List.any_cons, Bool.or_assoc]

/-- The framebuffer bits after `printCode`, as a function of the glyph alone. -/
theorem printCode_spec {tbl : GlyphTable} {c : Nat} (hg : validGlyph tbl c) (s : State)
    (hs : s.DisplayMem.length = NUMCOLUMNS) :
    ∃ s', printCode tbl c s = some s' ∧ memOK s' ∧
      s' = { s with DisplayMem := s'.DisplayMem } ∧
      ∀ i b, memBit s' i b =
        (List.range 3).any fun k => decide (i = 2 - k) &&
          (List.range 5).any fun n =>
            decide (b = 4 - n) && (glyphByte tbl c n).testBit (7 - k) := by
  have ok0 : memOK { s with DisplayMem := [0, 0, 0, 0, 0, 0, 0] } := by
    refine ⟨rfl, ?_⟩
    intro v hv
    simp at hv
    omega
  obtain ⟨s', h1, ok, f, b1⟩ := printCode_cols hg (List.range 3)
    (fun k hk => List.mem_range.1 hk) _ ok0
  refine ⟨s', ?_, ok, ?_, ?_⟩
  · unfold printCode
    rw [cls_eq hs, Option.some_bind]
    exact h1
  · rw [f]
  · intro i b
    rw [b1 i b]
    have : memBit { s with DisplayMem := [0, 0, 0, 0, 0, 0, 0] } i b = false := by
      unfold memBit
      match i with
      | 0 | 1 | 2 | 3 | 4 | 5 | 6 => simp
      | _ + 7 => simp
    rw [this, Bool.false_or]

theorem mem_entry_zero {s : State} {i : Nat} (hi : i < s.DisplayMem.length)
    (h : ∀ b, memBit s i b = false) : s.DisplayMem[i]? = some 0 := by
  rw [List.getElem?_eq_getElem hi]
  congr 1
  apply Nat.eq_of_testBit_eq
  intro b
  have := h b
  unfold memBit at this
  rw [List.getD_eq_getElem _ _ hi] at this
  rw [this, Nat.zero_testBit]

/-- The image `printCode` leaves in the framebuffer, pixel by pixel. -/
theorem printCode_spec_full (tbl : GlyphTable) (c : Nat) (s : State)
    (hs : s.DisplayMem.length = NUMCOLUMNS) (hg : validGlyph tbl c) :
    ∃ s', printCode tbl c s = some s' ∧ memOK s' ∧
      s' = { s with DisplayMem := s'.DisplayMem } ∧
      (∀ k n, k < 3 → n < 5 →
        memBit s' (2 - k) (4 - n) = (glyphByte tbl c n).testBit (7 - k)) ∧
      (∀ i b, ¬ (i ≤ 2 ∧ b ≤ 4) → memBit s' i b = false) ∧
      (∀ i, 3 ≤ i → i < NUMCOLUMNS → s'.DisplayMem[i]? = some 0) := by
  obtain ⟨s', h1, ok, f, b1⟩ := printCode_spec hg s hs
  have hother : ∀ i b, ¬ (i ≤ 2 ∧ b ≤ 4) → memBit s' i b = false := by
    intro i b hib
    rw [b1 i b, Bool.eq_false_iff]
    intro h
    simp only [List.any_eq_true, List.mem_range, Bool.and_eq_true, decide_eq_true_eq] at h
    obtain ⟨k, _, hi, n, _, hb, _⟩ := h
    omega
  refine ⟨s', h1, ok, f, ?_, hother, ?_⟩
  · intro k n hk hn
    rw [b1]
    interval_cases k <;> interval_cases n <;> simp [List.range_succ]
  · intro i h3 h7
    apply mem_entry_zero (by rw [ok.1]; exact h7)
    intro b
    exact hother i b (by omega)

/-- C6: for every glyph table, every valid glyph index `c` and every prior state with
a 7-entry framebuffer, `printCode c` returns; afterwards, for each `k < 3` and each
glyph row `n < 5`, bit `4 - n` of `DisplayMem[2 - k]` (logical pixel `(k + 4, 4 - n)`) is
set iff bit `7 - k` of `smallbitmap[c][n]` is set; every other framebuffer bit is 0, in
particular `DisplayMem[3..6]` are 0; the registers are unchanged and the resulting
framebuffer does not depend on the prior framebuffer. -/
theorem printCode_renders_shifted_glyph (tbl : GlyphTable) (c : Nat) (s : State)
    (hs : s.DisplayMem.length = NUMCOLUMNS) (hg : validGlyph tbl c) :
    ∃ s', printCode tbl c s = some s' ∧ s'.DisplayMem.length = NUMCOLUMNS ∧
      s' = { s with DisplayMem := s'.DisplayMem } ∧
      (∀ k n, k < 3 → n < 5 →
        memBit s' (2 - k) (4 - n) = (glyphByte tbl c n).testBit (7 - k)) ∧
      (∀ i b, ¬ (i ≤ 2 ∧ b ≤ 4) → memBit s' i b = false) ∧
      (∀ i, 3 ≤ i → i < NUMCOLUMNS → s'.DisplayMem[i]? = some 0) ∧
      (∀ t : State, t.DisplayMem.length = NUMCOLUMNS →
        ∃ t', printCode tbl c t = some t' ∧ t'.DisplayMem = s'.DisplayMem) := by
  obtain ⟨s', h1, ok, f, hb, ho, hz⟩ := printCode_spec_full tbl c s hs hg
  refine ⟨s', h1, ok.1, f, hb, ho, hz, ?_⟩
  intro t ht
  obtain ⟨t', g1, okt, _, bt⟩ := printCode_spec hg t ht
  obtain ⟨s2, g2, _, _, b2⟩ := printCode_spec hg s hs
  have e : s2 = s' := Option.some.inj (g2.symm.trans h1)
  subst e
  refine ⟨t', g1, ?_⟩
  apply mem_eq_of_memBit okt.1 ok.1
  intro i b _
  rw [bt i b, b2 i b]

theorem printCode_renders_shifted_glyph_witness :
    sampleState.DisplayMem.length = NUMCOLUMNS ∧ validGlyph sampleFont 13 ∧
    ∃ s', printCode sampleFont 13 sampleState = some s' ∧ s'.DisplayMem.length = NUMCOLUMNS ∧
      s' = { sampleState with DisplayMem := s'.DisplayMem } ∧
      (∀ k n, k < 3 → n < 5 →
        memBit s' (2 - k) (4 - n) = (glyphByte sampleFont 13 n).testBit (7 - k)) ∧
      (∀ i b, ¬ (i ≤ 2 ∧ b ≤ 4) → memBit s' i b = false) ∧
      (∀ i, 3 ≤ i → i < NUMCOLUMNS → s'.DisplayMem[i]? = some 0) ∧
      (∀ t : State, t.DisplayMem.length = NUMCOLUMNS →
        ∃ t', printCode sampleFont 13 t = some t' ∧ t'.DisplayMem = s'.DisplayMem) :=
  ⟨by decide, by decide,
    printCode_renders_shifted_glyph sampleFont 13 sampleState (by decide) (by decide)⟩

/-- C7: for every `v` in 0..15 and every prior state, `hex1 v` is `printCode v` when
`v < 10` and `printCode (v + 3)` when `v ≥ 10`; when that glyph index is valid and the
framebuffer has 7 entries both return the same state, whose lit pixels in logical
columns 4..6 (`DisplayMem[2 - k]`, `k < 3`) are the 3-column, 5-row image of that glyph
and whose other bits are 0. -/
theorem hex1_renders_hex_glyph (tbl : GlyphTable) (v : Nat) (s : State) (hv : v < 16)
    (hs : s.DisplayMem.length = NUMCOLUMNS)
    (hg : validGlyph tbl (if v < 10 then v else v + 3)) :
    (v < 10 → hex1 tbl v s = printCode tbl v s) ∧
    (10 ≤ v → hex1 tbl v s = printCode tbl (v + 3) s) ∧
    ∃ s', hex1 tbl v s = some s' ∧
      printCode tbl (if v < 10 then v else v + 3) s = some s' ∧
      (∀ k n, k < 3 → n < 5 → memBit s' (2 - k) (4 - n) =
        (glyphByte tbl (if v < 10 then v else v + 3) n).testBit (7 - k)) ∧
      (∀ i b, ¬ (i ≤ 2 ∧ b ≤ 4) → memBit s' i b = false) := by
  have _ := hv
  have heq : hex1 tbl v s = printCode tbl (if v < 10 then v else v + 3) s := by
    unfold hex1
    split <;> rfl
  refine ⟨?_, ?_, ?_⟩
  · intro h
    rw [heq, if_pos h]
  · intro h
    rw [heq, if_neg (by omega)]
  · obtain ⟨s', h1, _, _, hb, ho, _⟩ := printCode_spec_full tbl _ s hs hg
    exact ⟨s', heq.trans h1, h1, hb, ho⟩

theorem hex1_renders_hex_glyph_witness :
    11 < 16 ∧ sampleState.DisplayMem.length = NUMCOLUMNS ∧
    validGlyph sampleFont (if 11 < 10 then 11 else 11 + 3) ∧
    ((11 < 10 → hex1 sampleFont 11 sampleState = printCode sampleFont 11 sampleState) ∧
    (10 ≤ 11 → hex1 sampleFont 11 sampleState = printCode sampleFont (11 + 3) sampleState) ∧
    ∃ s', hex1 sampleFont 11 sampleState = some s' ∧
      printCode sampleFont (if 11 < 10 then 11 else 11 + 3) sampleState = some s' ∧
      (∀ k n, k < 3 → n < 5 → memBit s' (2 - k) (4 - n) =
        (glyphByte sampleFont (if 11 < 10 then 11 else 11 + 3) n).testBit (7 - k)) ∧
      (∀ i b, ¬ (i ≤ 2 ∧ b ≤ 4) → memBit s' i b = false)) :=
  ⟨by decide, by decide, by decide,
    hex1_renders_hex_glyph sampleFont 11 sampleState (by decide) (by decide) (by decide)⟩

theorem toU8_natCast {n : Nat} (h : n < 256) : toU8 (n : Int) = n := by
  unfold toU8; omega

theorem putchar_digit (tbl : GlyphTable) (d : Nat) (s : State) (hd : d < 10) :
    _putchar tbl (48 + (d : Int)) s = printCode tbl d s := by
  have h1 : (48 : Int) ≤ 48 + (d : Int) ∧ 48 + (d : Int) ≤ 57 := by omega
  have h2 : ¬ ((65 : Int) ≤ 48 + (d : Int) ∧ 48 + (d : Int) ≤ 90) := by omega
  have h3 : ¬ ((97 : Int) ≤ 48 + (d : Int) ∧ 48 + (d : Int) ≤ 122) := by omega
  have hk : toU8 (48 + (d : Int) - 48) = d := by unfold toU8; omega
  simp only [_putchar, if_pos h1, if_neg h2, if_neg h3, hk, Option.some_bind]

theorem putchar_upper (tbl : GlyphTable) (p : Nat) (s : State) (hp : p < 26) :
    _putchar tbl (65 + (p : Int)) s = printCode tbl (p + 13) s := by
  have h2 : (65 : Int) ≤ 65 + (p : Int) ∧ 65 + (p : Int) ≤ 90 := by omega
  have h3 : ¬ ((97 : Int) ≤ 65 + (p : Int) ∧ 65 + (p : Int) ≤ 122) := by omega
  have hk : toU8 (65 + (p : Int) - 65 + 13) = p + 13 := by unfold toU8; omega
  simp only [_putchar, if_pos h2, if_neg h3, hk, Option.some_bind]

theorem putchar_lower (tbl : GlyphTable) (p : Nat) (s : State) (hp : p < 26) :
    _putchar tbl (97 + (p : Int)) s = printCode tbl (p + 13) s := by
  have h3 : (97 : Int) ≤ 97 + (p : Int) ∧ 97 + (p : Int) ≤ 122 := by omega
  have hk : toU8 (97 + (p : Int) - 97 + 13) = p + 13 := by unfold toU8; omega
  simp only [_putchar, if_pos h3, hk, Option.some_bind]

/-- C8: for every ASCII digit `'0' + d` (`d < 10`), `_putchar` behaves as `printCode d`;
for every letter position `p < 26`, `_putchar ('A' + p)` and `_putchar ('a' + p)` both
behave as `printCode (p + 13)`.  When the framebuffer has 7 entries and the glyph index
is valid, the calls return one and the same state. -/
theorem putchar_maps_alphanumerics (tbl : GlyphTable) (s : State)
    (hs : s.DisplayMem.length = NUMCOLUMNS) :
    (∀ d : Nat, d < 10 →
      _putchar tbl (48 + (d : Int)) s = printCode tbl d s ∧
      (validGlyph tbl d → ∃ s', printCode tbl d s = some s' ∧
        _putchar tbl (48 + (d : Int)) s = some s')) ∧
    (∀ p : Nat, p < 26 →
      _putchar tbl (65 + (p : Int)) s = printCode tbl (p + 13) s ∧
      _putchar tbl (97 + (p : Int)) s = printCode tbl (p + 13) s ∧
      (validGlyph tbl (p + 13) → ∃ s', printCode tbl (p + 13) s = some s' ∧
        _putchar tbl (65 + (p : Int)) s = some s' ∧
        _putchar tbl (97 + (p : Int)) s = some s')) := by
  constructor
  · intro d hd
    refine ⟨putchar_digit tbl d s hd, ?_⟩
    intro hg
    obtain ⟨s', h1, _⟩ := printCode_spec hg s hs
    exact ⟨s', h1, (putchar_digit tbl d s hd).trans h1⟩
  · intro p hp
    refine ⟨putchar_upper tbl p s hp, putchar_lower tbl p s hp, ?_⟩
    intro hg
    obtain ⟨s', h1, _⟩ := printCode_spec hg s hs
    exact ⟨s', h1, (putchar_upper tbl p s hp).trans h1, (putchar_lower tbl p s hp).trans h1⟩

theorem putchar_maps_alphanumerics_witness :
    sampleState.DisplayMem.length = NUMCOLUMNS ∧ (0 : Nat) < 26 ∧ validGlyph sampleFont (0 + 13) ∧
    _putchar sampleFont (65 + ((0 : Nat) : Int)) sampleState =
      printCode sampleFont (0 + 13) sampleState ∧
    _putchar sampleFont (97 + ((0 : Nat) : Int)) sampleState =
      printCode sampleFont (0 + 13) sampleState ∧
    ∃ s', printCode sampleFont (0 + 13) sampleState = some s' ∧
      _putchar sampleFont (65 + ((0 : Nat) : Int)) sampleState = some s' ∧
      _putchar sampleFont (97 + ((0 : Nat) : Int)) sampleState = some s' :=
  have h := (putchar_maps_alphanumerics sampleFont sampleState (by decide)).2 0 (by decide)
  ⟨by decide, by decide, by decide, h.1, h.2.1, h.2.2 (by decide)⟩

/-! ## The indicator overlay -/

theorem shr_and_one (k n : Nat) : (k >>> n) &&& 1 ≠ 0 ↔ k.testBit n = true := by
  unfold Nat.testBit
  rw [Nat.and_comm]
  simp

/-- A `setPixel` whose intensity is chosen by a flag, as in `showLeds`. -/
theorem setPixel_flag {s : State} (x y : Nat) (flag : Bool) (c : Prop) [Decidable c]
    (hc : c ↔ flag = true) (hs : memOK s) (hx : x < NUMCOLUMNS) (hy : y < NUMROWS) :
    ∃ s', (if c then setPixel x y 1 s else setPixel x y 0 s) = some s' ∧ memOK s' ∧
      s' = { s with DisplayMem := s'.DisplayMem } ∧
      ∀ i b, memBit s' i b =
        if i = NUMCOLUMNS - 1 - x ∧ b = y then flag else memBit s i b := by
  by_cases h : c
  · obtain ⟨s', h1, ok, f, b1⟩ := setPixel_spec x y 1 hs hx hy
    refine ⟨s', by rw [if_pos h]; exact h1, ok, f, ?_⟩
    intro i b
    rw [b1 i b, hc.1 h]
    simp
  · obtain ⟨s', h1, ok, f, b1⟩ := setPixel_spec x y 0 hs hx hy
    have hf : flag = false := by
      cases flag
      · rfl
      · exact absurd (hc.2 rfl) h
    refine ⟨s', by rw [if_neg h]; exact h1, ok, f, ?_⟩
    intro i b
    rw [b1 i b, hf]
    simp

/-- The loop of `showLeds` over a list of flag numbers. -/
theorem showLeds_loop (k : Nat) (ns : List Nat) (hns : ∀ n ∈ ns, n < 5) (s : State)
    (hs : memOK s) :
    ∃ s', ns.foldlM (fun st n =>
        if (k >>> n) &&& 1 ≠ 0 then setPixel 0 (toU8 (4 - (n : Int))) 1 st
        else setPixel 0 (toU8 (4 - (n : Int))) 0 st) s = some s' ∧ memOK s' ∧
      s' = { s with DisplayMem := s'.DisplayMem } ∧
      ∀ i b, memBit s' i b =
        if i = 6 ∧ (ns.any fun n => decide (b = 4 - n)) = true then k.testBit (4 - b)
        else memBit s i b := by
  induction ns generalizing s with
  | nil => exact ⟨s, rfl, hs, rfl, by simp⟩
  | cons n ns ih =>
    have hn : n < 5 := hns n (List.mem_cons_self _ _)
    have hy : toU8 (4 - (n : Int)) = 4 - n := by unfold toU8; omega
    obtain ⟨s1, h1, ok1, f1, b1⟩ := setPixel_flag 0 (4 - n) (k.testBit n)
      ((k >>> n) &&& 1 ≠ 0) (shr_and_one k n) hs (by decide) (by unfold NUMROWS; omega)
    obtain ⟨s2, h2, ok2, f2, b2⟩ :=
      ih (fun m hm => hns m (List.mem_cons_of_mem _ hm)) s1 ok1
    refine ⟨s2, ?_, ok2, ?_, ?_⟩
    · rw [List.foldlM_cons, hy, h1]
      exact h2
    · rw [f2, f1]
    · intro i b
      rw [b2 i b, b1 i b, List.any_cons]
      have h6 : NUMCOLUMNS - 1 - 0 = 6 := rfl
      rw [h6]
      by_cases hi : i = 6
      · by_cases hb : b = 4 - n
        · have hnb : 4 - (4 - n) = n := by omega
          simp [hi, hb, hnb]
        · simp [hi, hb]
      · simp [hi]

theorem any_row_iff (b : Nat) :
    ((List.range 5).any fun n => decide (b = 4 - n)) = true ↔ b ≤ 4 := by
  simp only [List.any_eq_true, List.mem_range, decide_eq_true_eq]
  constructor
  · rintro ⟨n, _, h⟩
    omega
  · intro h
    exact ⟨4 - b, by omega, by omega⟩

/-- The state after `showLeds k`: the framebuffer `s3` after the seven `setPixel` calls,
then `ledOn` or `ledOff`. -/
theorem showLeds_spec (k : Nat) (s : State) (hs : memOK s) :
    ∃ s3, showLeds k s = some (if (k >>> 7) &&& 1 ≠ 0 then ledOn s3 else ledOff s3) ∧
      memOK s3 ∧ s3 = { s with DisplayMem := s3.DisplayMem } ∧
      ∀ i b, memBit s3 i b =
        if i = 4 ∧ b = 0 then k.testBit 6
        else if i = 5 ∧ b = 0 then k.testBit 5
        else if i = 6 ∧ b ≤ 4 then k.testBit (4 - b)
        else memBit s i b := by
  obtain ⟨s1, h1, ok1, f1, b1⟩ :=
    showLeds_loop k (List.range 5) (fun n hn => List.mem_range.1 hn) s hs
  obtain ⟨s2, h2, ok2, f2, b2⟩ := setPixel_flag 1 0 (k.testBit 5)
    ((k >>> 5) &&& 1 ≠ 0) (shr_and_one k 5) ok1 (by decide) (by decide)
  obtain ⟨s3, h3, ok3, f3, b3⟩ := setPixel_flag 2 0 (k.testBit 6)
    ((k >>> 6) &&& 1 ≠ 0) (shr_and_one k 6) ok2 (by decide) (by decide)
  refine ⟨s3, ?_, ok3, ?_, ?_⟩
  · unfold showLeds forUpTo
    rw [h1, Option.some_bind, h2, Option.some_bind, h3, Option.some_bind]
  · rw [f3, f2, f1]
  · intro i b
    rw [b3 i b, b2 i b, b1 i b]
    have e2 : NUMCOLUMNS - 1 - 2 = 4 := rfl
    have e1 : NUMCOLUMNS - 1 - 1 = 5 := rfl
    simp only [e1, e2, any_row_iff]

theorem memBit_led (k : Nat) (s : State) (i b : Nat) :
    memBit (if (k >>> 7) &&& 1 ≠ 0 then ledOn s else ledOff s) i b = memBit s i b := by
  split <;> rfl

theorem mem_entry_eq {s t : State} {i : Nat} (hs : i < s.DisplayMem.length)
    (ht : i < t.DisplayMem.length) (h : ∀ b, memBit s i b = memBit t i b) :
    s.DisplayMem[i]? = t.DisplayMem[i]? := by
  rw [List.getElem?_eq_getElem hs, List.getElem?_eq_getElem ht]
  congr 1
  apply Nat.eq_of_testBit_eq
  intro b
  have := h b
  unfold memBit at this
  rwa [List.getD_eq_getElem _ _ hs, List.getD_eq_getElem _ _ ht] at this

/-- C9: for every flags value `k` and every well-formed prior framebuffer, `showLeds k`
returns; afterwards, for each `n` in 0..4, bit `4 - n` of `DisplayMem[6]` (logical
column 0, row `4 - n`) is set iff bit `n` of `k` is set, bit 0 of `DisplayMem[5]`
(logical (1, 0)) is set iff bit 5 of `k` is set and bit 0 of `DisplayMem[4]` (logical
(2, 0)) is set iff bit 6 of `k` is set; so led4, led5 and led6 share row 0, and for
`k = 1` the only lit indicator pixel is column 0, row 4. -/
theorem showLeds_indicator_pixels (k : Nat) (s : State) (hs : memOK s) :
    ∃ s', showLeds k s = some s' ∧
      (∀ n, n < 5 → memBit s' 6 (4 - n) = k.testBit n) ∧
      memBit s' 6 0 = k.testBit 4 ∧
      memBit s' 5 0 = k.testBit 5 ∧
      memBit s' 4 0 = k.testBit 6 ∧
      (k = 1 → memBit s' 6 4 = true ∧ (∀ b, b < 4 → memBit s' 6 b = false) ∧
        memBit s' 5 0 = false ∧ memBit s' 4 0 = false) := by
  obtain ⟨s3, h, _, _, hb⟩ := showLeds_spec k s hs
  have hrow : ∀ n, n < 5 → memBit s3 6 (4 - n) = k.testBit n := by
    intro n hn
    have h4 : 4 - (4 - n) = n := by omega
    rw [hb 6 (4 - n)]
    simp [h4]
  have h5 : memBit s3 5 0 = k.testBit 5 := by
    rw [hb 5 0]
    simp
  have h6 : memBit s3 4 0 = k.testBit 6 := by
    rw [hb 4 0]
    simp
  refine ⟨_, h, ?_, ?_, ?_, ?_, ?_⟩
  · intro n hn
    rw [memBit_led]
    exact hrow n hn
  · rw [memBit_led]
    exact hrow 4 (by decide)
  · rw [memBit_led]
    exact h5
  · rw [memBit_led]
    exact h6
  · intro hk
    subst hk
    refine ⟨?_, ?_, ?_, ?_⟩
    · rw [memBit_led, hrow 0 (by decide)]
      decide
    · intro b hb4
      rw [memBit_led]
      have := hrow (4 - b) (by omega)
      have e : 4 - (4 - b) = b := by omega
      rw [e] at this
      rw [this]
      interval_cases b <;> decide
    · rw [memBit_led, h5]
      decide
    · rw [memBit_led, h6]
      decide

theorem showLeds_indicator_pixels_witness :
    memOK sampleState ∧
    ∃ s', showLeds 1 sampleState = some s' ∧
      (∀ n, n < 5 → memBit s' 6 (4 - n) = Nat.testBit 1 n) ∧
      memBit s' 6 0 = Nat.testBit 1 4 ∧
      memBit s' 5 0 = Nat.testBit 1 5 ∧
      memBit s' 4 0 = Nat.testBit 1 6 ∧
      (1 = 1 → memBit s' 6 4 = true ∧ (∀ b, b < 4 → memBit s' 6 b = false) ∧
        memBit s' 5 0 = false ∧ memBit s' 4 0 = false) :=
  ⟨by decide, showLeds_indicator_pixels 1 sampleState (by decide)⟩

/-- C10: `showLeds` does not clear the framebuffer: for every `k` and every well-formed
prior framebuffer it returns and changes no framebuffer bit other than the seven
indicator pixels (bits 0..4 of `DisplayMem[6]`, bit 0 of `DisplayMem[5]`, bit 0 of
`DisplayMem[4]`); the entries `DisplayMem[0..3]` are unchanged, so the glyph image
written by a preceding `printCode` is still in the framebuffer after `showLeds`. -/
theorem showLeds_keeps_glyph_area (k : Nat) (s : State) (hs : memOK s) :
    (∃ s', showLeds k s = some s' ∧ s'.DisplayMem.length = NUMCOLUMNS ∧
      (∀ i b, ¬ ((i = 6 ∧ b ≤ 4) ∨ (i = 5 ∧ b = 0) ∨ (i = 4 ∧ b = 0)) →
        memBit s' i b = memBit s i b) ∧
      (∀ i, i < 4 → s'.DisplayMem[i]? = s.DisplayMem[i]?)) ∧
    (∀ (tbl : GlyphTable) (c : Nat), validGlyph tbl c →
      ∃ s1 s2, printCode tbl c s = some s1 ∧ showLeds k s1 = some s2 ∧
        (∀ i, i < 4 → s2.DisplayMem[i]? = s1.DisplayMem[i]?) ∧
        (∀ j n, j < 3 → n < 5 →
          memBit s2 (2 - j) (4 - n) = (glyphByte tbl c n).testBit (7 - j))) := by
  have key : ∀ t : State, memOK t →
      ∃ t', showLeds k t = some t' ∧ t'.DisplayMem.length = NUMCOLUMNS ∧
        (∀ i b, ¬ ((i = 6 ∧ b ≤ 4) ∨ (i = 5 ∧ b = 0) ∨ (i = 4 ∧ b = 0)) →
          memBit t' i b = memBit t i b) ∧
        (∀ i, i < 4 → t'.DisplayMem[i]? = t.DisplayMem[i]?) := by
    intro t ht
    obtain ⟨s3, h, ok3, _, hb⟩ := showLeds_spec k t ht
    have hlen : (if (k >>> 7) &&& 1 ≠ 0 then ledOn s3 else ledOff s3).DisplayMem.length
        = NUMCOLUMNS := by
      split <;> exact ok3.1
    have hfr : ∀ i b, ¬ ((i = 6 ∧ b ≤ 4) ∨ (i = 5 ∧ b = 0) ∨ (i = 4 ∧ b = 0)) →
        memBit (if (k >>> 7) &&& 1 ≠ 0 then ledOn s3 else ledOff s3) i b = memBit t i b := by
      intro i b hne
      rw [memBit_led, hb i b]
      rw [if_neg (fun h4 => hne (Or.inr (Or.inr h4))),
        if_neg (fun h5 => hne (Or.inr (Or.inl h5))),
        if_neg (fun h6 => hne (Or.inl h6))]
    refine ⟨_, h, hlen, hfr, ?_⟩
    intro i hi
    have h7 : NUMCOLUMNS = 7 := rfl
    apply mem_entry_eq (by rw [hlen, h7]; omega) (by rw [ht.1, h7]; omega)
    intro b
    exact hfr i b (by omega)
  refine ⟨key s hs, ?_⟩
  intro tbl c hg
  obtain ⟨s1, p1, ok1, _, pb, _, _⟩ := printCode_spec_full tbl c s hs.1 hg
  obtain ⟨s2, q1, _, qf, qe⟩ := key s1 ok1
  refine ⟨s1, s2, p1, q1, qe, ?_⟩
  intro j n hj hn
  rw [qf (2 - j) (4 - n) (by omega)]
  exact pb j n hj hn

theorem showLeds_keeps_glyph_area_witness :
    memOK sampleState ∧
    ((∃ s', showLeds 0x7F sampleState = some s' ∧ s'.DisplayMem.length = NUMCOLUMNS ∧
      (∀ i b, ¬ ((i = 6 ∧ b ≤ 4) ∨ (i = 5 ∧ b = 0) ∨ (i = 4 ∧ b = 0)) →
        memBit s' i b = memBit sampleState i b) ∧
      (∀ i, i < 4 → s'.DisplayMem[i]? = sampleState.DisplayMem[i]?)) ∧
    (∀ (tbl : GlyphTable) (c : Nat), validGlyph tbl c →
      ∃ s1 s2, printCode tbl c sampleState = some s1 ∧ showLeds 0x7F s1 = some s2 ∧
        (∀ i, i < 4 → s2.DisplayMem[i]? = s1.DisplayMem[i]?) ∧
        (∀ j n, j < 3 → n < 5 →
          memBit s2 (2 - j) (4 - n) = (glyphByte tbl c n).testBit (7 - j)))) :=
  ⟨by decide, showLeds_keeps_glyph_area 0x7F sampleState (by decide)⟩

theorem testBit_xor_128 (k j : Nat) (hj : j < 7) : (k ^^^ 0x80).testBit j = k.testBit j := by
  have h : (0x80 : Nat) = 2 ^ 7 := by norm_num
  rw [h, Nat.testBit_xor, Nat.testBit_two_pow]
  have : ¬ 7 = j := by omega
  simp [this]

theorem ledOn_PORTC (s : State) (j : Nat) :
    (ledOn s).PORTC.testBit j = (decide (j < 8) && (s.PORTC.testBit j || decide (j = 0))) := by
  show (u8 (s.PORTC ||| 1)).testBit j = _
  rw [testBit_u8, Nat.testBit_or]
  have h1 : (1 : Nat) = 1 <<< 0 := rfl
  rw [h1, testBit_one_shl]
  by_cases hj : j = 0 <;> simp [hj, eq_comm]

theorem ledOff_PORTC (s : State) (j : Nat) :
    (ledOff s).PORTC.testBit j = (decide (j < 8) && (s.PORTC.testBit j && !decide (j = 0))) := by
  show (u8 (s.PORTC &&& cnot 1)).testBit j = _
  rw [testBit_u8, Nat.testBit_and, testBit_cnot]
  have h1 : (1 : Nat) = 1 <<< 0 := rfl
  rw [h1, testBit_one_shl]
  by_cases hj : j = 0
  · simp [hj]
  · by_cases h8 : j < 8
    · have : j < 16 := by omega
      simp [hj, h8, this, Ne.symm hj]
    · simp [h8]

/-- C11: bit 7 of the flags bypasses the framebuffer: for every `k` and every well-formed
prior state, `showLeds k` and `showLeds (k XOR 0x80)` both return and leave the same
framebuffer; after `showLeds k` the indicator line PORTC bit 0 is high iff bit 7 of `k`
is set, and PORTC bit 3 (the line of column 5) is as before. -/
theorem showLeds_bit7_bypasses_framebuffer (k : Nat) (s : State) (hs : memOK s) :
    ∃ s1 s2, showLeds k s = some s1 ∧ showLeds (k ^^^ 0x80) s = some s2 ∧
      s1.DisplayMem = s2.DisplayMem ∧
      s1.PORTC.testBit 0 = k.testBit 7 ∧
      s1.PORTC.testBit 3 = s.PORTC.testBit 3 := by
  obtain ⟨t1, h1, ok1, f1, b1⟩ := showLeds_spec k s hs
  obtain ⟨t2, h2, ok2, _, b2⟩ := showLeds_spec (k ^^^ 0x80) s hs
  have hmem : t1.DisplayMem = t2.DisplayMem := by
    apply mem_eq_of_memBit ok1.1 ok2.1
    intro i b _
    rw [b1 i b, b2 i b, testBit_xor_128 k 6 (by omega), testBit_xor_128 k 5 (by omega),
      testBit_xor_128 k (4 - b) (by omega)]
  have hpc : t1.PORTC = s.PORTC := by rw [f1]
  refine ⟨_, _, h1, h2, ?_, ?_, ?_⟩
  · have e1 : (if (k >>> 7) &&& 1 ≠ 0 then ledOn t1 else ledOff t1).DisplayMem
        = t1.DisplayMem := by split <;> rfl
    have e2 : (if ((k ^^^ 0x80) >>> 7) &&& 1 ≠ 0 then ledOn t2 else ledOff t2).DisplayMem
        = t2.DisplayMem := by split <;> rfl
    rw [e1, e2, hmem]
  · by_cases h7 : (k >>> 7) &&& 1 ≠ 0
    · rw [if_pos h7, ledOn_PORTC, (shr_and_one k 7).1 h7]
      simp
    · have hf : k.testBit 7 = false := by
        cases hb : k.testBit 7
        · rfl
        · exact absurd ((shr_and_one k 7).2 hb) h7
      rw [if_neg h7, ledOff_PORTC, hf]
      simp
  · by_cases h7 : (k >>> 7) &&& 1 ≠ 0
    · rw [if_pos h7, ledOn_PORTC, hpc]
      simp
    · rw [if_neg h7, ledOff_PORTC, hpc]
      simp

theorem showLeds_bit7_bypasses_framebuffer_witness :
    memOK sampleState ∧
    ∃ s1 s2, showLeds 0x80 sampleState = some s1 ∧
      showLeds (0x80 ^^^ 0x80) sampleState = some s2 ∧
      s1.DisplayMem = s2.DisplayMem ∧
      s1.PORTC.testBit 0 = Nat.testBit 0x80 7 ∧
      s1.PORTC.testBit 3 = sampleState.PORTC.testBit 3 :=
  ⟨by decide, showLeds_bit7_bypasses_framebuffer 0x80 sampleState (by decide)⟩

/-! ## The scan multiplexer: port lemmas -/

theorem testBit_setBit (p b j : Nat) :
    (setBit p b).testBit j = (decide (j < 8) && (p.testBit j || decide (b = j))) := by
  unfold setBit
  rw [testBit_u8, Nat.testBit_or, testBit_one_shl]

theorem testBit_clrBit (p b j : Nat) :
    (clrBit p b).testBit j = (decide (j < 8) && (p.testBit j && !decide (b = j))) := by
  unfold clrBit
  rw [testBit_u8, Nat.testBit_and, testBit_cnot, testBit_one_shl]
  by_cases h8 : j < 8
  · have : j < 16 := by omega
    simp [h8, this]
  · simp [h8]

theorem rowMask_eq :
    (((1 : Nat) <<< 7) ||| (1 <<< 6) ||| (1 <<< 5) ||| (1 <<< 4) ||| (1 <<< 3)) = 0b11111000 := by
  decide

theorem testBit_rowMask (j : Nat) :
    (0b11111000 : Nat).testBit j = (decide (3 ≤ j) && decide (j < 8)) := by
  by_cases h8 : j < 8
  · interval_cases j <;> decide
  · have : (0b11111000 : Nat).testBit j = false :=
      testBit_byte_high (by norm_num) (by omega)
    simp [this, h8]

theorem ROWSOFF_PORTD (s : State) (j : Nat) :
    (ROWSOFF s).PORTD.testBit j =
      (decide (j < 8) && (s.PORTD.testBit j || decide (3 ≤ j))) := by
  show (u8 (s.PORTD ||| _)).testBit j = _
  rw [rowMask_eq, testBit_u8, Nat.testBit_or, testBit_rowMask]
  by_cases h8 : j < 8 <;> simp [h8]

theorem setRowPattern_PORTD (pattern : Nat) (s : State) (j : Nat) :
    (setRowPattern pattern s).PORTD.testBit j =
      (decide (j < 8) && ((s.PORTD.testBit j || decide (3 ≤ j)) &&
        !(decide (3 ≤ j) && pattern.testBit (j - 3)))) := by
  show (u8 (u8 (s.PORTD ||| 0b11111000) &&& cnot (pattern <<< 3))).testBit j = _
  rw [testBit_u8, Nat.testBit_and, testBit_u8, Nat.testBit_or, testBit_rowMask, testBit_cnot,
    Nat.testBit_shiftLeft]
  by_cases h8 : j < 8
  · have : j < 16 := by omega
    simp [h8, this]
  · simp [h8]

theorem setCol_frame (col : Nat) (s : State) :
    (setCol col s).DisplayMem = s.DisplayMem ∧ (setCol col s).column = s.column ∧
    (setCol col s).DDRB = s.DDRB ∧ (setCol col s).DDRC = s.DDRC ∧
    (setCol col s).DDRD = s.DDRD := by
  unfold setCol setColSelect
  split_ifs <;> exact ⟨rfl, rfl, rfl, rfl, rfl⟩

/-- After `setCol col` exactly the anode line of column `col` is high. -/
theorem setCol_colLine (col : Nat) (s : State) (hc : col < 7) (j : Nat) (hj : j < 7) :
    colLine (setCol col s) j = decide (j = col) := by
  interval_cases col <;> interval_cases j <;>
    simp [setCol, setColSelect, colLine, testBit_setBit, testBit_clrBit, -Nat.testBit_zero]

/-- The writes of `setCol` leave the cathode bits of PORTD alone. -/
theorem setCol_PORTD (col : Nat) (s : State) (j : Nat) (hj : 3 ≤ j) :
    (setCol col s).PORTD.testBit j = (decide (j < 8) && s.PORTD.testBit j) := by
  have h2 : ¬ 2 = j := by omega
  unfold setCol setColSelect
  split_ifs <;> simp [testBit_setBit, testBit_clrBit, h2]

/-- One scan tick on a 7-entry framebuffer with the cursor in range, in closed form. -/
theorem tick_eq (s : State) (hs : s.DisplayMem.length = NUMCOLUMNS)
    (hc : s.column < NUMCOLUMNS) :
    _showMatrix s = some { setRowPattern (s.DisplayMem.getD s.column 0)
      (setCol s.column (ROWSOFF s)) with column := (s.column + 1) % 7 } := by
  have hlen : s.DisplayMem.length = 7 := hs
  have hcol : s.column < 7 := hc
  obtain ⟨hm, hcl, _⟩ := setCol_frame s.column (ROWSOFF s)
  have hm2 : (setCol s.column (ROWSOFF s)).DisplayMem = s.DisplayMem := hm
  have hc2 : (setCol s.column (ROWSOFF s)).column = s.column := hcl
  have hlt : s.column < s.DisplayMem.length := by omega
  have hread : readMem (setCol s.column (ROWSOFF s))
      ((setCol s.column (ROWSOFF s)).column : Int) = some (s.DisplayMem.getD s.column 0) := by
    unfold readMem
    rw [hc2, hm2]
    simp [List.getD_eq_getElem _ _ hlt, List.getElem?_eq_getElem hlt]
  have hrc : ∀ p, (setRowPattern p (setCol s.column (ROWSOFF s))).column = s.column :=
    fun _ => hc2
  unfold _showMatrix
  simp only [show (ROWSOFF s).column = s.column from rfl, hread, Option.some_bind, hrc]
  congr 1
  by_cases h6 : s.column = 6
  · simp [h6, u8, NUMCOLUMNS]
  · have h5 : s.column + 1 < 7 := by omega
    have hu : u8 (s.column + 1) = s.column + 1 := by unfold u8; omega
    have hmod : (s.column + 1) % 7 = s.column + 1 := Nat.mod_eq_of_lt h5
    simp [hu, hmod, NUMCOLUMNS, h5]
    omega

/-- What one scan tick leaves behind: framebuffer, cursor, anode and cathode lines. -/
theorem tick_spec (s : State) (hs : s.DisplayMem.length = NUMCOLUMNS)
    (hc : s.column < NUMCOLUMNS) :
    ∃ s', _showMatrix s = some s' ∧ s'.DisplayMem = s.DisplayMem ∧
      s'.column = (s.column + 1) % 7 ∧
      (∀ j, j < 7 → colLine s' j = decide (j = s.column)) ∧
      (∀ r, r < 5 → rowLine s' r = !(memBit s s.column r)) ∧
      s'.DDRB = s.DDRB ∧ s'.DDRC = s.DDRC ∧ s'.DDRD = s.DDRD := by
  have hcol : s.column < 7 := hc
  obtain ⟨hm, _, hb, hc3, hd⟩ := setCol_frame s.column (ROWSOFF s)
  refine ⟨_, tick_eq s hs hc, hm, rfl, ?_, ?_, hb, hc3, hd⟩
  · intro j hj
    rw [← setCol_colLine s.column (ROWSOFF s) hcol j hj]
    have h2 := setRowPattern_PORTD (s.DisplayMem.getD s.column 0)
      (setCol s.column (ROWSOFF s)) 2
    match j, hj with
    | 0, _ | 1, _ | 2, _ | 3, _ | 4, _ | 5, _ => rfl
    | 6, _ =>
      show (setRowPattern _ _).PORTD.testBit 2 = (setCol _ _).PORTD.testBit 2
      rw [h2]
      simp
  · intro r hr
    show (setRowPattern _ _).PORTD.testBit (3 + r) = _
    rw [setRowPattern_PORTD]
    have h8 : 3 + r < 8 := by omega
    simp [h8, memBit]

/-- The state after `n` ticks: framebuffer, cursor, direction registers and, when at least
one tick ran, the active anode line. -/
theorem ticks_spec (n : Nat) (s : State) (hs : s.DisplayMem.length = NUMCOLUMNS)
    (hc : s.column < NUMCOLUMNS) :
    ∃ s', ticks n s = some s' ∧ s'.DisplayMem = s.DisplayMem ∧
      s'.column = (s.column + n) % 7 ∧
      s'.DDRB = s.DDRB ∧ s'.DDRC = s.DDRC ∧ s'.DDRD = s.DDRD ∧
      (0 < n → ∀ j, j < 7 → colLine s' j = decide (j = (s.column + (n - 1)) % 7)) := by
  induction n generalizing s with
  | zero =>
    have hcol : s.column < 7 := hc
    exact ⟨s, rfl, rfl, by simp; omega, rfl, rfl, rfl, fun h => absurd h (by omega)⟩
  | succ n ih =>
    have hcol : s.column < 7 := hc
    obtain ⟨s1, h1, m1, c1, l1, _, b1, p1, d1⟩ := tick_spec s hs hc
    have hc1 : s1.column < NUMCOLUMNS := by
      rw [c1]; exact Nat.mod_lt _ (by norm_num)
    obtain ⟨s2, h2, m2, c2, b2, p2, d2, l2⟩ := ih s1 (by rw [m1]; exact hs) hc1
    refine ⟨s2, ?_, by rw [m2, m1], ?_, by rw [b2, b1], by rw [p2, p1], by rw [d2, d1], ?_⟩
    · show (_showMatrix s).bind (ticks n) = some s2
      rw [h1]
      exact h2
    · rw [c2, c1]
      omega
    · intro _ j hj
      by_cases hn : n = 0
      · subst hn
        have e : s2 = s1 := (Option.some.inj h2).symm
        rw [e, l1 j hj]
        have : (s.column + (0 + 1 - 1)) % 7 = s.column := by
          simp only [Nat.zero_add, Nat.sub_self, Nat.add_zero]
          exact Nat.mod_eq_of_lt hcol
        rw [this]
      · rw [l2 (by omega) j hj, c1]
        have : ((s.column + 1) % 7 + (n - 1)) % 7 = (s.column + (n + 1 - 1)) % 7 := by omega
        rw [this]

/-- C12: for every port state, every 7-entry framebuffer and every scan cursor `c < 7`,
one tick `_showMatrix` returns; afterwards exactly the anode line of column `c` is high
(0: PORTB bit 0, 1: PORTB bit 2, 2: PORTB bit 3, 3: PORTB bit 4, 4: PORTB bit 5,
5: PORTC bit 3, 6: PORTD bit 2) and the other six are low, and for each row `r < 5` the
cathode line PORTD bit `3 + r` is low iff bit `r` of `DisplayMem[c]` is set. -/
theorem scanTick_activates_cursor_column (s : State)
    (hs : s.DisplayMem.length = NUMCOLUMNS) (hc : s.column < NUMCOLUMNS) :
    ∃ s', _showMatrix s = some s' ∧
      s'.PORTB.testBit 0 = decide (s.column = 0) ∧
      s'.PORTB.testBit 2 = decide (s.column = 1) ∧
      s'.PORTB.testBit 3 = decide (s.column = 2) ∧
      s'.PORTB.testBit 4 = decide (s.column = 3) ∧
      s'.PORTB.testBit 5 = decide (s.column = 4) ∧
      s'.PORTC.testBit 3 = decide (s.column = 5) ∧
      s'.PORTD.testBit 2 = decide (s.column = 6) ∧
      (∀ r, r < NUMROWS →
        s'.PORTD.testBit (3 + r) = !((s.DisplayMem.getD s.column 0).testBit r)) := by
  obtain ⟨s', h, _, _, hl, hr, _⟩ := tick_spec s hs hc
  have e : ∀ (j : Nat), decide (j = s.column) = decide (s.column = j) := by
    intro j
    by_cases hj : j = s.column
    · simp [hj]
    · simp [hj, Ne.symm hj]
  refine ⟨s', h, ?_, ?_, ?_, ?_, ?_, ?_, ?_, hr⟩
  · exact (hl 0 (by decide)).trans (e 0)
  · exact (hl 1 (by decide)).trans (e 1)
  · exact (hl 2 (by decide)).trans (e 2)
  · exact (hl 3 (by decide)).trans (e 3)
  · exact (hl 4 (by decide)).trans (e 4)
  · exact (hl 5 (by decide)).trans (e 5)
  · exact (hl 6 (by decide)).trans (e 6)

theorem scanTick_activates_cursor_column_witness :
    scanState.DisplayMem.length = NUMCOLUMNS ∧ scanState.column < NUMCOLUMNS ∧
    ∃ s', _showMatrix scanState = some s' ∧
      s'.PORTB.testBit 0 = decide (scanState.column = 0) ∧
      s'.PORTB.testBit 2 = decide (scanState.column = 1) ∧
      s'.PORTB.testBit 3 = decide (scanState.column = 2) ∧
      s'.PORTB.testBit 4 = decide (scanState.column = 3) ∧
      s'.PORTB.testBit 5 = decide (scanState.column = 4) ∧
      s'.PORTC.testBit 3 = decide (scanState.column = 5) ∧
      s'.PORTD.testBit 2 = decide (scanState.column = 6) ∧
      (∀ r, r < NUMROWS → s'.PORTD.testBit (3 + r) =
        !((scanState.DisplayMem.getD scanState.column 0).testBit r)) :=
  ⟨by decide, by decide, scanTick_activates_cursor_column scanState (by decide) (by decide)⟩

/-- C13: a full scan cycle activates each column exactly once: from any cursor `c < 7`,
after tick `i + 1` (`i < 7`) exactly the anode line of column `(c + i) mod 7` is high;
the lines active after two different ticks of the cycle are different; every one of the
seven lines is the active one after exactly one of the seven ticks; and the cursor after
the seventh tick is `c` again. -/
theorem scanCycle_each_column_once (s : State)
    (hs : s.DisplayMem.length = NUMCOLUMNS) (hc : s.column < NUMCOLUMNS) :
    (∀ i, i < 7 → ∃ t, ticks (i + 1) s = some t ∧
      ∀ j, j < 7 → colLine t j = decide (j = (s.column + i) % 7)) ∧
    (∀ i i', i < 7 → i' < 7 → i ≠ i' → ∀ t t', ticks (i + 1) s = some t →
      ticks (i' + 1) s = some t' → ∀ j, j < 7 → ¬ (colLine t j = true ∧ colLine t' j = true)) ∧
    (∀ j, j < 7 → ∃ i, i < 7 ∧ (∃ t, ticks (i + 1) s = some t ∧ colLine t j = true) ∧
      ∀ i', i' < 7 → ∀ t', ticks (i' + 1) s = some t' → colLine t' j = true → i' = i) ∧
    (∃ t, ticks 7 s = some t ∧ t.column = s.column) := by
  have hcol : s.column < 7 := hc
  have key : ∀ i, i < 7 → ∃ t, ticks (i + 1) s = some t ∧
      ∀ j, j < 7 → colLine t j = decide (j = (s.column + i) % 7) := by
    intro i _
    obtain ⟨t, h, _, _, _, _, _, hl⟩ := ticks_spec (i + 1) s hs hc
    exact ⟨t, h, fun j hj => hl (by omega) j hj⟩
  have active : ∀ i, i < 7 → ∀ t, ticks (i + 1) s = some t → ∀ j, j < 7 →
      colLine t j = true → j = (s.column + i) % 7 := by
    intro i hi t ht j hj hj1
    obtain ⟨t0, h0, l0⟩ := key i hi
    have e : t0 = t := Option.some.inj (h0.symm.trans ht)
    subst e
    rw [l0 j hj] at hj1
    exact of_decide_eq_true hj1
  refine ⟨key, ?_, ?_, ?_⟩
  · intro i i' hi hi' hne t t' ht ht' j hj hboth
    have h1 := active i hi t ht j hj hboth.1
    have h2 := active i' hi' t' ht' j hj hboth.2
    omega
  · intro j hj
    refine ⟨(j + 7 - s.column) % 7, Nat.mod_lt _ (by norm_num), ?_, ?_⟩
    · obtain ⟨t, h, l⟩ := key ((j + 7 - s.column) % 7) (Nat.mod_lt _ (by norm_num))
      refine ⟨t, h, ?_⟩
      rw [l j hj]
      apply decide_eq_true
      omega
    · intro i' hi' t' ht' hj1
      have := active i' hi' t' ht' j hj hj1
      omega
  · obtain ⟨t, h, _, c7, _⟩ := ticks_spec 7 s hs hc
    refine ⟨t, h, ?_⟩
    rw [c7]
    omega

theorem scanCycle_each_column_once_witness :
    scanState.DisplayMem.length = NUMCOLUMNS ∧ scanState.column < NUMCOLUMNS ∧
    ((∀ i, i < 7 → ∃ t, ticks (i + 1) scanState = some t ∧
      ∀ j, j < 7 → colLine t j = decide (j = (scanState.column + i) % 7)) ∧
    (∀ i i', i < 7 → i' < 7 → i ≠ i' → ∀ t t', ticks (i + 1) scanState = some t →
      ticks (i' + 1) scanState = some t' →
      ∀ j, j < 7 → ¬ (colLine t j = true ∧ colLine t' j = true)) ∧
    (∀ j, j < 7 → ∃ i, i < 7 ∧
      (∃ t, ticks (i + 1) scanState = some t ∧ colLine t j = true) ∧
      ∀ i', i' < 7 → ∀ t', ticks (i' + 1) scanState = some t' →
        colLine t' j = true → i' = i) ∧
    (∃ t, ticks 7 scanState = some t ∧ t.column = scanState.column)) :=
  ⟨by decide, by decide, scanCycle_each_column_once scanState (by decide) (by decide)⟩

/-! ## The scan tick, write by write -/

theorem runWrites_append (ws1 ws2 : List (State → State)) (s : State) :
    runWrites (ws1 ++ ws2) s =
      runWrites ws1 s ++ runWrites ws2 (ws1.foldl (fun t w => w t) s) := by
  induction ws1 generalizing s with
  | nil => rfl
  | cons w ws ih =>
    show w s :: runWrites (ws ++ ws2) (w s) = w s :: _
    rw [ih]
    rfl

/-- A property kept by every write of a list holds in every state the list passes through. -/
theorem runWrites_inv (P : State → Prop) (ws : List (State → State)) (s : State)
    (hw : ∀ w ∈ ws, ∀ t, P t → P (w t)) (h0 : P s) : ∀ t ∈ runWrites ws s, P t := by
  induction ws generalizing s with
  | nil =>
    intro t ht
    simp [runWrites] at ht
  | cons w ws ih =>
    intro t ht
    have hP : P (w s) := hw w (List.mem_cons_self _ _) s h0
    rcases List.mem_cons.1 ht with h | h
    · rw [h]; exact hP
    · exact ih (w s) (fun v hv => hw v (List.mem_cons_of_mem _ hv)) hP t h

theorem blankingWrites_foldl (col : Nat) (s : State) :
    setColSelect col (blankingWrites.foldl (fun t w => w t) s) = setCol col (ROWSOFF s) := rfl

/-- No blanking write raises an anode line. -/
theorem blankingWrites_colLine (w : State → State) (hw : w ∈ blankingWrites) (t : State)
    (j : Nat) (hj : j < 7) (h : colLine (w t) j = true) : colLine t j = true := by
  simp only [blankingWrites, List.mem_cons, List.mem_singleton, List.not_mem_nil,
    or_false] at hw
  rcases hw with rfl | rfl | rfl | rfl | rfl | rfl | rfl | rfl
  · have h2 := ROWSOFF_PORTD t 2
    interval_cases j
    all_goals first
      | exact h
      | (simp only [colLine] at h ⊢; rw [h2] at h; simpa using h)
  all_goals
    interval_cases j <;>
      simp only [colLine, testBit_clrBit, Bool.and_eq_true, decide_eq_true_eq] at h ⊢ <;>
      first
        | exact h
        | exact h.2.1

theorem setColSelect_PORTD (col : Nat) (t : State) (j : Nat) (hj : 3 ≤ j) (hj8 : j < 8) :
    (setColSelect col t).PORTD.testBit j = t.PORTD.testBit j := by
  have h2 : ¬ 2 = j := by omega
  unfold setColSelect
  split_ifs <;> simp [testBit_setBit, h2, hj8]

/-- No blanking write but the first touches a cathode line. -/
theorem blankingWrites_rowLine (w : State → State) (hw : w ∈ blankingWrites.tail) (t : State)
    (h : ∀ r, r < NUMROWS → rowLine t r = true) : ∀ r, r < NUMROWS → rowLine (w t) r = true := by
  simp only [blankingWrites, List.tail_cons, List.mem_cons, List.mem_singleton,
    List.not_mem_nil, or_false] at hw
  intro r hr
  have hr5 : r < 5 := hr
  rcases hw with rfl | rfl | rfl | rfl | rfl | rfl | rfl
  · have h2 : ¬ 2 = 3 + r := by omega
    have h8 : 3 + r < 8 := by omega
    have := h r hr
    simp only [rowLine] at this ⊢
    simp [testBit_clrBit, h2, h8, this]
  all_goals exact h r hr

theorem exactlyOne_atMostOne (t : State) (c : Nat)
    (h : ∀ j, j < 7 → colLine t j = decide (j = c)) : atMostOneCol t := by
  intro i j hi hj h1 h2
  rw [h i hi] at h1
  rw [h j hj] at h2
  have e1 := of_decide_eq_true h1
  have e2 := of_decide_eq_true h2
  omega

/-- C14: blanking before the column switch, over the individual port writes of a tick.
For a 7-entry framebuffer and a cursor below 7 the tick passes through 11 port states
(after `ROWSOFF`, after each of the eight writes of `setCol`, after each of the two
writes of `setRowPattern`), the last of which is the result of `_showMatrix` up to the
cursor.  In every state but the last, i.e. from `ROWSOFF` until `setRowPattern` loads the
pattern, all five cathode lines (PORTD bits 3..7) are high.  If at most one anode line
is high before the tick, at most one is high in every state of the tick; and at most one
is high after the tick in any case, so the next tick starts from such a state. -/
theorem scanTick_blanks_before_switch (s : State)
    (hs : s.DisplayMem.length = NUMCOLUMNS) (hc : s.column < NUMCOLUMNS) :
    ∃ tr last s', tickTrace s = some tr ∧ _showMatrix s = some s' ∧
      tr.length = 11 ∧ tr.head? = some (ROWSOFF s) ∧
      tr.getLast? = some last ∧ s' = { last with column := s'.column } ∧
      (∀ t ∈ tr.dropLast, ∀ r, r < NUMROWS → rowLine t r = true) ∧
      (atMostOneCol s → ∀ t ∈ tr, atMostOneCol t) ∧
      atMostOneCol s' := by
  have hcol : s.column < 7 := hc
  have hlt : s.column < s.DisplayMem.length := by rw [hs]; exact hc
  have hread : readMem s (s.column : Int) = some (s.DisplayMem.getD s.column 0) := by
    unfold readMem
    simp [List.getD_eq_getElem _ _ hlt, List.getElem?_eq_getElem hlt]
  have htr : runWrites (tickWrites s.column (s.DisplayMem.getD s.column 0)) s =
      runWrites blankingWrites s ++
        [ setCol s.column (ROWSOFF s),
          { setCol s.column (ROWSOFF s) with
            PORTD := u8 ((setCol s.column (ROWSOFF s)).PORTD ||| 0b11111000) },
          setRowPattern (s.DisplayMem.getD s.column 0) (setCol s.column (ROWSOFF s)) ] := by
    unfold tickWrites
    rw [runWrites_append]
    rfl
  have hrows0 : ∀ r, r < NUMROWS → rowLine (ROWSOFF s) r = true := by
    intro r hr
    have hr5 : r < 5 := hr
    have h8 : 3 + r < 8 := by omega
    simp only [rowLine]
    rw [ROWSOFF_PORTD]
    simp [h8]
  have hrowsA : ∀ t ∈ runWrites blankingWrites s, ∀ r, r < NUMROWS → rowLine t r = true := by
    intro t ht
    have hsplit : runWrites blankingWrites s =
        ROWSOFF s :: runWrites blankingWrites.tail (ROWSOFF s) := rfl
    rw [hsplit] at ht
    rcases List.mem_cons.1 ht with h | h
    · rw [h]; exact hrows0
    · exact runWrites_inv (fun u => ∀ r, r < NUMROWS → rowLine u r = true) _ _
        (fun w hw u hu => blankingWrites_rowLine w hw u hu) hrows0 t h
  have hrows7 : ∀ r, r < NUMROWS →
      rowLine (blankingWrites.foldl (fun t w => w t) s) r = true := by
    apply hrowsA
    show _ ∈ runWrites blankingWrites s
    simp [runWrites, blankingWrites]
  have hrows8 : ∀ r, r < NUMROWS → rowLine (setCol s.column (ROWSOFF s)) r = true := by
    intro r hr
    have hr5 : r < 5 := hr
    rw [← blankingWrites_foldl]
    simp only [rowLine]
    rw [setColSelect_PORTD _ _ _ (by omega) (by omega)]
    exact hrows7 r hr
  have hcol8 := setCol_colLine s.column (ROWSOFF s) hcol
  have hcol9 : ∀ j, j < 7 → colLine { setCol s.column (ROWSOFF s) with
      PORTD := u8 ((setCol s.column (ROWSOFF s)).PORTD ||| 0b11111000) } j
        = decide (j = s.column) := by
    intro j hj
    rw [← hcol8 j hj]
    match j, hj with
    | 0, _ | 1, _ | 2, _ | 3, _ | 4, _ | 5, _ => rfl
    | 6, _ =>
      show (u8 (_ ||| 0b11111000)).testBit 2 = (setCol _ _).PORTD.testBit 2
      rw [testBit_u8, Nat.testBit_or, testBit_rowMask]
      simp
  obtain ⟨s', h1, _, _, hcolS, _⟩ := tick_spec s hs hc
  have hs' : s' = { setRowPattern (s.DisplayMem.getD s.column 0)
      (setCol s.column (ROWSOFF s)) with column := (s.column + 1) % 7 } :=
    Option.some.inj (h1.symm.trans (tick_eq s hs hc))
  have hcol10 : ∀ j, j < 7 → colLine (setRowPattern (s.DisplayMem.getD s.column 0)
      (setCol s.column (ROWSOFF s))) j = decide (j = s.column) := by
    intro j hj
    rw [← hcolS j hj, hs']
    rfl
  refine ⟨runWrites (tickWrites s.column (s.DisplayMem.getD s.column 0)) s,
    setRowPattern (s.DisplayMem.getD s.column 0) (setCol s.column (ROWSOFF s)), s',
    by unfold tickTrace; rw [hread]; rfl, h1, rfl, rfl, rfl, ?_, ?_, ?_, ?_⟩
  · rw [hs']
  · rw [htr, List.dropLast_append_cons]
    intro t ht
    rcases List.mem_append.1 ht with h | h
    · exact hrowsA t h
    · simp only [List.dropLast, List.mem_cons, List.mem_singleton, List.not_mem_nil,
        or_false] at h
      rcases h with rfl | rfl
      · exact hrows8
      · intro r hr
        have hr5 : r < 5 := hr
        have h8 : 3 + r < 8 := by omega
        show (u8 (_ ||| 0b11111000)).testBit (3 + r) = true
        rw [testBit_u8, Nat.testBit_or, testBit_rowMask]
        simp [h8]
  · intro h0 t ht
    rw [htr] at ht
    rcases List.mem_append.1 ht with h | h
    · have hmono := runWrites_inv
        (fun u => ∀ j, j < 7 → colLine u j = true → colLine s j = true) blankingWrites s
        (fun w hw u hu j hj hj1 => hu j hj (blankingWrites_colLine w hw u j hj hj1))
        (fun _ _ h => h) t h
      intro i j hi hj hi1 hj1
      exact h0 i j hi hj (hmono i hi hi1) (hmono j hj hj1)
    · simp only [List.mem_cons, List.mem_singleton, List.not_mem_nil, or_false] at h
      rcases h with rfl | rfl | rfl
      · exact exactlyOne_atMostOne _ _ hcol8
      · exact exactlyOne_atMostOne _ _ hcol9
      · exact exactlyOne_atMostOne _ _ hcol10
  · exact exactlyOne_atMostOne _ _ hcolS

theorem scanTick_blanks_before_switch_witness :
    scanState.DisplayMem.length = NUMCOLUMNS ∧ scanState.column < NUMCOLUMNS ∧
    ∃ tr last s', tickTrace scanState = some tr ∧ _showMatrix scanState = some s' ∧
      tr.length = 11 ∧ tr.head? = some (ROWSOFF scanState) ∧
      tr.getLast? = some last ∧ s' = { last with column := s'.column } ∧
      (∀ t ∈ tr.dropLast, ∀ r, r < NUMROWS → rowLine t r = true) ∧
      (atMostOneCol scanState → ∀ t ∈ tr, atMostOneCol t) ∧
      atMostOneCol s' :=
  ⟨by decide, by decide, scanTick_blanks_before_switch scanState (by decide) (by decide)⟩

/-! ## Cursor, duration and frame of the scan -/

/-- C15: the scan cursor is always in `[0, NUMCOLUMNS)`: it starts at 0; from every
cursor `c < 7` one tick `_showMatrix` returns and leaves it at `(c + 1) mod 7`; hence
after any number of ticks, from the initial state or from any state with the cursor in
range, it is still below 7. -/
theorem scanCursor_stays_in_range :
    initialState.column = 0 ∧
    (∀ s : State, s.DisplayMem.length = NUMCOLUMNS → s.column < NUMCOLUMNS →
      ∃ s', _showMatrix s = some s' ∧ s'.column = (s.column + 1) % NUMCOLUMNS ∧
        (s.column = NUMCOLUMNS - 1 → s'.column = 0) ∧ s'.column < NUMCOLUMNS) ∧
    (∀ (n : Nat) (s : State), s.DisplayMem.length = NUMCOLUMNS → s.column < NUMCOLUMNS →
      ∃ s', ticks n s = some s' ∧ s'.column < NUMCOLUMNS) ∧
    (∀ n : Nat, ∃ s', ticks n initialState = some s' ∧ s'.column < NUMCOLUMNS) := by
  have h7 : NUMCOLUMNS = 7 := rfl
  have many : ∀ (n : Nat) (s : State), s.DisplayMem.length = NUMCOLUMNS →
      s.column < NUMCOLUMNS → ∃ s', ticks n s = some s' ∧ s'.column < NUMCOLUMNS := by
    intro n s hs hc
    obtain ⟨s', h, _, c, _⟩ := ticks_spec n s hs hc
    exact ⟨s', h, by rw [c, h7]; exact Nat.mod_lt _ (by norm_num)⟩
  refine ⟨rfl, ?_, many, fun n => many n initialState rfl (by decide)⟩
  intro s hs hc
  obtain ⟨s', h, _, c, _⟩ := tick_spec s hs hc
  refine ⟨s', h, by rw [c, h7], ?_, by rw [c, h7]; exact Nat.mod_lt _ (by norm_num)⟩
  intro h6
  rw [c, h6, h7]

theorem scanCursor_stays_in_range_witness :
    scanState.DisplayMem.length = NUMCOLUMNS ∧ scanState.column < NUMCOLUMNS ∧
    (∃ s', _showMatrix scanState = some s' ∧
      s'.column = (scanState.column + 1) % NUMCOLUMNS ∧
      (scanState.column = NUMCOLUMNS - 1 → s'.column = 0) ∧ s'.column < NUMCOLUMNS) ∧
    (∃ s', ticks 10 scanState = some s' ∧ s'.column < NUMCOLUMNS) :=
  ⟨by decide, by decide,
    scanCursor_stays_in_range.2.1 scanState (by decide) (by decide),
    scanCursor_stays_in_range.2.2.1 10 scanState (by decide) (by decide)⟩

/-- The loop of `showMatrix`, entered with counter `n ≤ ms`, runs the remaining
`ms - n` ticks whenever the bound on loop tests exceeds that number. -/
theorem showMatrixLoop_eq_ticks (ms : Nat) (hms : ms < 65536) (fuel n : Nat) (s : State)
    (hn : n ≤ ms) (hf : ms - n < fuel) :
    showMatrixLoop ms fuel n s = ticks (ms - n) s := by
  induction fuel generalizing n s with
  | zero => omega
  | succ fuel ih =>
    unfold showMatrixLoop
    by_cases hlt : n < ms
    · rw [if_pos hlt]
      have hu : u16 (n + 1) = n + 1 := by unfold u16; omega
      have hk : ms - n = (ms - (n + 1)) + 1 := by omega
      rw [hk, hu]
      show _ = (_showMatrix s).bind (ticks (ms - (n + 1)))
      congr 1
      funext s1
      exact ih (n + 1) s1 (by omega) (by omega)
    · rw [if_neg hlt]
      have : ms - n = 0 := by omega
      rw [this]
      rfl

theorem testBit_colMask (j : Nat) :
    (((1 : Nat) <<< 5) ||| (1 <<< 4) ||| (1 <<< 3) ||| (1 <<< 2) ||| (1 <<< 0)).testBit j =
      (decide (j = 0) || (decide (2 ≤ j) && decide (j ≤ 5))) := by
  have e : (((1 : Nat) <<< 5) ||| (1 <<< 4) ||| (1 <<< 3) ||| (1 <<< 2) ||| (1 <<< 0)) = 61 := by
    decide
  rw [e]
  by_cases h8 : j < 8
  · interval_cases j <;> decide
  · have : (61 : Nat).testBit j = false := testBit_byte_high (by norm_num) (by omega)
    have h0 : ¬ j = 0 := by omega
    have h5 : ¬ j ≤ 5 := by omega
    simp [this, h0, h5]

/-- After `displayOff` the twelve matrix lines are inputs. -/
theorem displayOff_released (t : State) :
    (∀ j, 2 ≤ j → j ≤ 7 → (displayOff t).DDRD.testBit j = false) ∧
    (displayOff t).DDRB.testBit 0 = false ∧ (displayOff t).DDRB.testBit 2 = false ∧
    (displayOff t).DDRB.testBit 3 = false ∧ (displayOff t).DDRB.testBit 4 = false ∧
    (displayOff t).DDRB.testBit 5 = false ∧ (displayOff t).DDRC.testBit 3 = false := by
  have hB : ∀ j, (displayOff t).DDRB.testBit j = (decide (j < 8) && (t.DDRB.testBit j &&
      (decide (j < 16) ^^ (decide (j = 0) || (decide (2 ≤ j) && decide (j ≤ 5)))))) := by
    intro j
    show (u8 (t.DDRB &&& cnot _)).testBit j = _
    rw [testBit_u8, Nat.testBit_and, testBit_cnot, testBit_colMask]
  have hD : ∀ j, (displayOff t).DDRD.testBit j = (decide (j < 8) &&
      ((decide (j < 8) && (t.DDRD.testBit j &&
        (decide (j < 16) ^^ (decide (3 ≤ j) && decide (j < 8))))) &&
        (decide (j < 16) ^^ decide (2 = j)))) := by
    intro j
    show (u8 (u8 (t.DDRD &&& cnot _) &&& cnot (1 <<< 2))).testBit j = _
    rw [rowMask_eq, testBit_u8, Nat.testBit_and, testBit_u8, Nat.testBit_and, testBit_cnot,
      testBit_cnot, testBit_rowMask, testBit_one_shl]
  have hC : (displayOff t).DDRC.testBit 3 = false := by
    show (u8 (t.DDRC &&& cnot (1 <<< 3))).testBit 3 = false
    rw [testBit_u8, Nat.testBit_and, testBit_cnot, testBit_one_shl]
    simp
  refine ⟨?_, ?_, ?_, ?_, ?_, ?_, hC⟩
  · intro j h2 h7
    rw [hD j]
    interval_cases j <;> simp
  all_goals rw [hB]; simp

/-- C16: for every 16-bit duration `ms` and every starting cursor `c < 7` on a 7-entry
framebuffer, `showMatrix ms` returns as soon as the bound on loop tests exceeds `ms`;
its result is `displayOff` applied to the state after exactly `ms` scan ticks from
`initDisplay`, so the cursor afterwards is `(c + ms) mod 7` (unchanged for `ms = 0`), and
on return the data-direction bits DDRD 2..7, DDRB 0, 2, 3, 4, 5 and DDRC 3 are all 0. -/
theorem showMatrix_runs_ms_ticks (ms fuel : Nat) (s : State) (hms : ms < 65536)
    (hfuel : ms < fuel) (hs : s.DisplayMem.length = NUMCOLUMNS)
    (hc : s.column < NUMCOLUMNS) :
    ∃ t s', ticks ms (initDisplay s) = some t ∧ showMatrix fuel ms s = some s' ∧
      s' = displayOff t ∧
      s'.column = (s.column + ms) % NUMCOLUMNS ∧ (ms = 0 → s'.column = s.column) ∧
      (∀ j, 2 ≤ j → j ≤ 7 → s'.DDRD.testBit j = false) ∧
      s'.DDRB.testBit 0 = false ∧ s'.DDRB.testBit 2 = false ∧ s'.DDRB.testBit 3 = false ∧
      s'.DDRB.testBit 4 = false ∧ s'.DDRB.testBit 5 = false ∧ s'.DDRC.testBit 3 = false := by
  have hcol : s.column < 7 := hc
  obtain ⟨t, ht, _, c, _⟩ := ticks_spec ms (initDisplay s) hs hc
  have hc' : (displayOff t).column = (s.column + ms) % NUMCOLUMNS := c
  obtain ⟨d1, d2, d3, d4, d5, d6, d7⟩ := displayOff_released t
  refine ⟨t, displayOff t, ht, ?_, rfl, hc', ?_, d1, d2, d3, d4, d5, d6, d7⟩
  · unfold showMatrix
    rw [showMatrixLoop_eq_ticks ms hms fuel 0 _ (Nat.zero_le _) (by omega), Nat.sub_zero, ht]
    rfl
  · intro h0
    rw [hc', h0, Nat.add_zero]
    exact Nat.mod_eq_of_lt hc

theorem showMatrix_runs_ms_ticks_witness :
    20 < 65536 ∧ 20 < 21 ∧ scanState.DisplayMem.length = NUMCOLUMNS ∧
    scanState.column < NUMCOLUMNS ∧
    ∃ t s', ticks 20 (initDisplay scanState) = some t ∧
      showMatrix 21 20 scanState = some s' ∧ s' = displayOff t ∧
      s'.column = (scanState.column + 20) % NUMCOLUMNS ∧
      (20 = 0 → s'.column = scanState.column) ∧
      (∀ j, 2 ≤ j → j ≤ 7 → s'.DDRD.testBit j = false) ∧
      s'.DDRB.testBit 0 = false ∧ s'.DDRB.testBit 2 = false ∧ s'.DDRB.testBit 3 = false ∧
      s'.DDRB.testBit 4 = false ∧ s'.DDRB.testBit 5 = false ∧ s'.DDRC.testBit 3 = false :=
  ⟨by decide, by decide, by decide, by decide,
    showMatrix_runs_ms_ticks 20 21 scanState (by decide) (by decide) (by decide) (by decide)⟩

theorem tick_frame (s s' : State) (h : _showMatrix s = some s') :
    s'.DisplayMem = s.DisplayMem := by
  unfold _showMatrix at h
  simp only [] at h
  cases hr : readMem (setCol (ROWSOFF s).column (ROWSOFF s))
      ((setCol (ROWSOFF s).column (ROWSOFF s)).column : Int) with
  | none =>
    rw [hr] at h
    exact absurd h (by simp)
  | some pattern =>
    rw [hr, Option.some_bind] at h
    rw [← Option.some.inj h]
    split_ifs <;> exact (setCol_frame _ _).1

theorem showMatrixLoop_frame (ms fuel n : Nat) (s s' : State)
    (h : showMatrixLoop ms fuel n s = some s') : s'.DisplayMem = s.DisplayMem := by
  induction fuel generalizing n s with
  | zero => exact absurd h (by simp [showMatrixLoop])
  | succ fuel ih =>
    unfold showMatrixLoop at h
    by_cases hlt : n < ms
    · rw [if_pos hlt] at h
      cases ht : _showMatrix s with
      | none =>
        rw [ht] at h
        exact absurd h (by simp)
      | some s1 =>
        rw [ht, Option.some_bind] at h
        rw [ih _ s1 h, tick_frame s s1 ht]
    · rw [if_neg hlt] at h
      rw [← Option.some.inj h]

/-- C17: the framebuffer is read-only to the scan multiplexer: for every state (any
framebuffer, cursor and ports) and every duration, whenever a scan tick `_showMatrix` or
`showMatrix ms` returns, all framebuffer entries are as before; `initDisplay` and
`displayOff` do not touch the framebuffer either.  With a 7-entry framebuffer and the
cursor below 7 both do return. -/
theorem scan_leaves_framebuffer (s : State) :
    (∀ s', _showMatrix s = some s' → s'.DisplayMem = s.DisplayMem) ∧
    (∀ fuel ms s', showMatrix fuel ms s = some s' → s'.DisplayMem = s.DisplayMem) ∧
    (initDisplay s).DisplayMem = s.DisplayMem ∧
    (displayOff s).DisplayMem = s.DisplayMem ∧
    (s.DisplayMem.length = NUMCOLUMNS → s.column < NUMCOLUMNS →
      (∃ s', _showMatrix s = some s' ∧ s'.DisplayMem = s.DisplayMem) ∧
      (∀ ms, ms < 65536 →
        ∃ s', showMatrix (ms + 1) ms s = some s' ∧ s'.DisplayMem = s.DisplayMem)) := by
  have hloop : ∀ fuel ms s', showMatrix fuel ms s = some s' →
      s'.DisplayMem = s.DisplayMem := by
    intro fuel ms s' h
    unfold showMatrix at h
    cases hl : showMatrixLoop ms fuel 0 (initDisplay s) with
    | none =>
      rw [hl] at h
      exact absurd h (by simp)
    | some t =>
      rw [hl] at h
      have e : displayOff t = s' := Option.some.inj h
      rw [← e]
      exact showMatrixLoop_frame ms fuel 0 (initDisplay s) t hl
  refine ⟨tick_frame s, hloop, rfl, rfl, ?_⟩
  intro hs hc
  constructor
  · obtain ⟨s', h, m, _⟩ := tick_spec s hs hc
    exact ⟨s', h, m⟩
  · intro ms hms
    obtain ⟨t, ht, _⟩ := ticks_spec ms (initDisplay s) hs hc
    have hrun : showMatrix (ms + 1) ms s = some (displayOff t) := by
      unfold showMatrix
      rw [showMatrixLoop_eq_ticks ms hms (ms + 1) 0 _ (Nat.zero_le _) (by omega),
        Nat.sub_zero, ht]
      rfl
    exact ⟨displayOff t, hrun, hloop _ _ _ hrun⟩

theorem scan_leaves_framebuffer_witness :
    scanState.DisplayMem.length = NUMCOLUMNS ∧ scanState.column < NUMCOLUMNS ∧
    (∃ s', _showMatrix scanState = some s' ∧ s'.DisplayMem = scanState.DisplayMem) ∧
    (∀ ms, ms < 65536 →
      ∃ s', showMatrix (ms + 1) ms scanState = some s' ∧
        s'.DisplayMem = scanState.DisplayMem) :=
  ⟨by decide, by decide,
    (scan_leaves_framebuffer scanState).2.2.2.2 (by decide) (by decide)⟩

/-! ## Row-bit invariant and bounds of the framebuffer accesses -/

theorem rowInv_memOK {s : State} (h : rowInv s) : memOK s :=
  ⟨h.1, fun v hv => Nat.lt_trans (h.2 v hv) (by decide)⟩

/-- The row-bit invariant, bit by bit. -/
theorem rowInv_iff_bits {s : State} (hs : s.DisplayMem.length = NUMCOLUMNS) :
    rowInv s ↔ ∀ i b, 5 ≤ b → memBit s i b = false := by
  constructor
  · intro h i b hb
    unfold memBit
    have hv : s.DisplayMem.getD i 0 < 2 ^ NUMROWS := by
      by_cases hi : i < s.DisplayMem.length
      · rw [List.getD_eq_getElem _ _ hi]
        exact h.2 _ (List.getElem_mem _)
      · rw [List.getD_eq_default _ _ (by omega)]
        decide
    apply Nat.testBit_lt_two_pow
    calc s.DisplayMem.getD i 0 < 2 ^ NUMROWS := hv
      _ ≤ 2 ^ b := Nat.pow_le_pow_right (by norm_num) hb
  · intro h
    refine ⟨hs, ?_⟩
    intro v hv
    obtain ⟨i, hi, rfl⟩ := List.getElem_of_mem hv
    apply Nat.lt_pow_two_of_testBit
    intro b hb
    have := h i b hb
    unfold memBit at this
    rwa [List.getD_eq_getElem _ _ hi] at this

/-- Every `setPixel` call on a framebuffer satisfying the row-bit invariant returns and
keeps the invariant. -/
theorem setPixel_rowInv (x y i : Nat) (s : State) (h : rowInv s) :
    ∃ s', setPixel x y i s = some s' ∧ rowInv s' := by
  by_cases hr : x < NUMCOLUMNS ∧ y < NUMROWS
  · obtain ⟨s', h1, ok, _, b1⟩ := setPixel_spec x y i (rowInv_memOK h) hr.1 hr.2
    refine ⟨s', h1, (rowInv_iff_bits ok.1).2 ?_⟩
    intro c b hb
    have hy : y < 5 := hr.2
    rw [b1 c b, if_neg (by omega)]
    exact (rowInv_iff_bits h.1).1 h c b hb
  · exact ⟨s, setPixel_guard_fails s x y i hr, h⟩

/-- A loop whose body keeps `P` wherever it returns keeps `P` wherever it returns. -/
theorem foldlM_inv {α : Type} (P : State → Prop) (f : State → α → Option State)
    (l : List α) (hf : ∀ a s s', P s → f s a = some s' → P s') :
    ∀ s s', P s → l.foldlM f s = some s' → P s' := by
  induction l with
  | nil =>
    intro s s' hP h
    rw [← Option.some.inj h]
    exact hP
  | cons a l ih =>
    intro s s' hP h
    rw [List.foldlM_cons] at h
    cases h1 : f s a with
    | none =>
      rw [h1] at h
      exact absurd h (by simp)
    | some s1 =>
      rw [h1] at h
      exact ih s1 s' (hf a s s1 hP h1) h

/-- A loop whose body returns and keeps `P` returns and keeps `P`. -/
theorem foldlM_progress {α : Type} (P : State → Prop) (f : State → α → Option State)
    (l : List α) (hf : ∀ a ∈ l, ∀ s, P s → ∃ s', f s a = some s' ∧ P s') :
    ∀ s, P s → ∃ s', l.foldlM f s = some s' ∧ P s' := by
  induction l with
  | nil => exact fun s hP => ⟨s, rfl, hP⟩
  | cons a l ih =>
    intro s hP
    obtain ⟨s1, h1, hP1⟩ := hf a (List.mem_cons_self _ _) s hP
    obtain ⟨s2, h2, hP2⟩ := ih (fun b hb => hf b (List.mem_cons_of_mem _ hb)) s1 hP1
    refine ⟨s2, ?_, hP2⟩
    rw [List.foldlM_cons, h1]
    exact h2

theorem rowInv_zero (s : State) : rowInv { s with DisplayMem := [0, 0, 0, 0, 0, 0, 0] } := by
  refine ⟨rfl, ?_⟩
  intro v hv
  have : v = 0 := by simpa using hv
  rw [this]
  decide

/-- Wherever `printCode` returns, for any table and index, the invariant holds. -/
theorem printCode_rowInv (tbl : GlyphTable) (c : Nat) (s s' : State) (h : rowInv s)
    (hp : printCode tbl c s = some s') : rowInv s' := by
  unfold printCode at hp
  rw [cls_eq h.1, Option.some_bind] at hp
  unfold forUpTo at hp
  refine foldlM_inv rowInv _ _ ?_ _ s' (rowInv_zero s) hp
  intro k sk sk' hk hsk
  refine foldlM_inv rowInv _ _ ?_ sk sk' hk hsk
  intro n sn sn' hn hsn
  beta_reduce at hsn
  cases hg : readGlyph tbl c n with
  | none =>
    rw [hg] at hsn
    exact absurd hsn (by simp)
  | some b =>
    rw [hg, Option.some_bind] at hsn
    by_cases hb : (b <<< k) &&& 0x80 ≠ 0
    · rw [if_pos hb] at hsn
      obtain ⟨t, ht, hinv⟩ := setPixel_rowInv (u8 (k + SHIFTLEFT))
        (toU8 ((NUMROWS : Int) - 1 - (n : Int))) 1 sn hn
      rw [ht] at hsn
      rw [← Option.some.inj hsn]
      exact hinv
    · rw [if_neg hb] at hsn
      rw [← Option.some.inj hsn]
      exact hn

theorem putchar_rowInv (tbl : GlyphTable) (c : Int) (s s' : State) (h : rowInv s)
    (hp : _putchar tbl c s = some s') : rowInv s' := by
  unfold _putchar at hp
  simp only [] at hp
  generalize (if 97 ≤ c ∧ c ≤ 122 then some (toU8 (c - 97 + 13))
    else if 65 ≤ c ∧ c ≤ 90 then some (toU8 (c - 65 + 13))
    else if 48 ≤ c ∧ c ≤ 57 then some (toU8 (c - 48)) else none) = k at hp
  cases k with
  | none => exact absurd hp (by simp)
  | some k =>
    rw [Option.some_bind] at hp
    exact printCode_rowInv tbl k s s' h hp

theorem showLeds_rowInv (k : Nat) (s : State) (h : rowInv s) :
    ∃ s', showLeds k s = some s' ∧ rowInv s' := by
  obtain ⟨s3, h1, ok3, _, b3⟩ := showLeds_spec k s (rowInv_memOK h)
  have h3 : rowInv s3 := by
    apply (rowInv_iff_bits ok3.1).2
    intro i b hb
    rw [b3 i b, if_neg (by omega), if_neg (by omega), if_neg (by omega)]
    exact (rowInv_iff_bits h.1).1 h i b hb
  refine ⟨_, h1, ?_⟩
  split
  · exact h3
  · exact h3

/-- C18: the row-bit invariant (7 entries, each below `2 ^ NUMROWS = 32`, i.e. bits 5, 6
and 7 clear) holds for the initial all-zero framebuffer and is kept by every mutating
operation for all arguments: `setPixel`, `cls` and `showLeds` return and keep it;
wherever `printCode`, `hex1` and `_putchar` return they keep it, and they do return on a
valid glyph index (so on every alphanumeric character whose glyph is in the table). -/
theorem rowInv_preserved :
    rowInv initialState ∧
    (∀ (s : State) (x y i : Nat), rowInv s → ∃ s', setPixel x y i s = some s' ∧ rowInv s') ∧
    (∀ s : State, rowInv s → ∃ s', cls s = some s' ∧ rowInv s') ∧
    (∀ (tbl : GlyphTable) (c : Nat) (s : State), rowInv s →
      (∀ s', printCode tbl c s = some s' → rowInv s') ∧
      (validGlyph tbl c → ∃ s', printCode tbl c s = some s' ∧ rowInv s')) ∧
    (∀ (tbl : GlyphTable) (v : Nat) (s : State), rowInv s →
      (∀ s', hex1 tbl v s = some s' → rowInv s') ∧
      (validGlyph tbl (if v < 10 then v else v + 3) →
        ∃ s', hex1 tbl v s = some s' ∧ rowInv s')) ∧
    (∀ (tbl : GlyphTable) (c : Int) (s : State), rowInv s →
      (∀ s', _putchar tbl c s = some s' → rowInv s') ∧
      (∀ p : Nat, p < 26 → c = 65 + (p : Int) ∨ c = 97 + (p : Int) →
        validGlyph tbl (p + 13) → ∃ s', _putchar tbl c s = some s' ∧ rowInv s') ∧
      (∀ d : Nat, d < 10 → c = 48 + (d : Int) →
        validGlyph tbl d → ∃ s', _putchar tbl c s = some s' ∧ rowInv s')) ∧
    (∀ (k : Nat) (s : State), rowInv s → ∃ s', showLeds k s = some s' ∧ rowInv s') := by
  have hprint : ∀ (tbl : GlyphTable) (c : Nat) (s : State), rowInv s → validGlyph tbl c →
      ∃ s', printCode tbl c s = some s' ∧ rowInv s' := by
    intro tbl c s h hg
    obtain ⟨s', h1, _⟩ := printCode_spec hg s h.1
    exact ⟨s', h1, printCode_rowInv tbl c s s' h h1⟩
  have hhex : ∀ (tbl : GlyphTable) (v : Nat) (s : State),
      hex1 tbl v s = printCode tbl (if v < 10 then v else v + 3) s := by
    intro tbl v s
    unfold hex1
    split <;> rfl
  refine ⟨by decide, fun s x y i h => setPixel_rowInv x y i s h, ?_, ?_, ?_, ?_,
    fun k s h => showLeds_rowInv k s h⟩
  · intro s h
    exact ⟨_, cls_eq h.1, rowInv_zero s⟩
  · intro tbl c s h
    exact ⟨fun s' hp => printCode_rowInv tbl c s s' h hp, hprint tbl c s h⟩
  · intro tbl v s h
    refine ⟨?_, ?_⟩
    · intro s' hp
      rw [hhex] at hp
      exact printCode_rowInv tbl _ s s' h hp
    · intro hg
      rw [hhex]
      exact hprint tbl _ s h hg
  · intro tbl c s h
    refine ⟨fun s' hp => putchar_rowInv tbl c s s' h hp, ?_, ?_⟩
    · intro p hp hc hg
      rcases hc with rfl | rfl
      · rw [putchar_upper tbl p s hp]
        exact hprint tbl _ s h hg
      · rw [putchar_lower tbl p s hp]
        exact hprint tbl _ s h hg
    · intro d hd hc hg
      rw [hc, putchar_digit tbl d s hd]
      exact hprint tbl _ s h hg

theorem rowInv_preserved_witness :
    rowInv initialState ∧
    (∃ s', setPixel 3 4 1 initialState = some s' ∧ rowInv s') ∧
    (∃ s', cls initialState = some s' ∧ rowInv s') ∧
    validGlyph sampleFont 13 ∧
    (∃ s', printCode sampleFont 13 initialState = some s' ∧ rowInv s') ∧
    (∃ s', _putchar sampleFont (65 + ((0 : Nat) : Int)) initialState = some s' ∧ rowInv s') ∧
    (∃ s', showLeds 0xFF initialState = some s' ∧ rowInv s') :=
  ⟨by decide,
    rowInv_preserved.2.1 initialState 3 4 1 (by decide),
    rowInv_preserved.2.2.1 initialState (by decide),
    by decide,
    (rowInv_preserved.2.2.2.1 sampleFont 13 initialState (by decide)).2 (by decide),
    (rowInv_preserved.2.2.2.2.2.1 sampleFont (65 + ((0 : Nat) : Int)) initialState
      (by decide)).2.1 0 (by decide) (Or.inl rfl) (by decide),
    rowInv_preserved.2.2.2.2.2.2 0xFF initialState (by decide)⟩

theorem readMem_isSome (s : State) (i : Int) :
    (readMem s i).isSome = true ↔ 0 ≤ i ∧ i < (s.DisplayMem.length : Int) := by
  unfold readMem
  by_cases h0 : 0 ≤ i
  · rw [if_pos h0]
    by_cases hl : i.toNat < s.DisplayMem.length
    · rw [List.getElem?_eq_getElem hl]
      simp only [Option.isSome_some, true_iff]
      omega
    · rw [List.getElem?_eq_none (by omega)]
      simp only [Option.isSome_none]
      constructor
      · intro h; exact absurd h (by decide)
      · intro h; omega
  · rw [if_neg h0]
    simp only [Option.isSome_none]
    constructor
    · intro h; exact absurd h (by decide)
    · intro h; exact absurd h.1 h0

theorem writeMem_isSome (s : State) (i : Int) (v : Nat) :
    (writeMem s i v).isSome = true ↔ 0 ≤ i ∧ i < (s.DisplayMem.length : Int) := by
  unfold writeMem
  by_cases h : 0 ≤ i ∧ i.toNat < s.DisplayMem.length
  · rw [if_pos h]
    simp only [Option.isSome_some, true_iff]
    omega
  · rw [if_neg h]
    simp only [Option.isSome_none]
    constructor
    · intro h1; exact absurd h1 (by decide)
    · intro h1
      exact absurd ⟨h1.1, by omega⟩ h

/-- Every `setPixel` call on a 7-entry framebuffer returns a 7-entry framebuffer. -/
theorem setPixel_len (x y i : Nat) (s : State) (hs : s.DisplayMem.length = NUMCOLUMNS) :
    ∃ s', setPixel x y i s = some s' ∧ s'.DisplayMem.length = NUMCOLUMNS := by
  by_cases hr : x < NUMCOLUMNS ∧ y < NUMROWS
  · exact ⟨_, setPixel_eq_len x y i hs hr.1 hr.2, by simpa using hs⟩
  · exact ⟨s, setPixel_guard_fails s x y i hr, hs⟩

theorem showLeds_len (k : Nat) (s : State) (hs : s.DisplayMem.length = NUMCOLUMNS) :
    ∃ s', showLeds k s = some s' ∧ s'.DisplayMem.length = NUMCOLUMNS := by
  have step : ∀ (c : Prop) [Decidable c] (x y : Nat) (t : State),
      t.DisplayMem.length = NUMCOLUMNS →
      ∃ t', (if c then setPixel x y 1 t else setPixel x y 0 t) = some t' ∧
        t'.DisplayMem.length = NUMCOLUMNS := by
    intro c _ x y t ht
    by_cases hc : c
    · rw [if_pos hc]; exact setPixel_len x y 1 t ht
    · rw [if_neg hc]; exact setPixel_len x y 0 t ht
  obtain ⟨s1, h1, l1⟩ := foldlM_progress (fun t => t.DisplayMem.length = NUMCOLUMNS)
    (fun st n => if (k >>> n) &&& 1 ≠ 0 then setPixel 0 (toU8 (4 - (n : Int))) 1 st
      else setPixel 0 (toU8 (4 - (n : Int))) 0 st) (List.range 5)
    (fun n _ t ht => step _ 0 _ t ht) s hs
  obtain ⟨s2, h2, l2⟩ := step ((k >>> 5) &&& 1 ≠ 0) 1 0 s1 l1
  obtain ⟨s3, h3, l3⟩ := step ((k >>> 6) &&& 1 ≠ 0) 2 0 s2 l2
  refine ⟨if (k >>> 7) &&& 1 ≠ 0 then ledOn s3 else ledOff s3, ?_, ?_⟩
  · unfold showLeds forUpTo
    rw [h1, Option.some_bind, h2, Option.some_bind, h3, Option.some_bind]
  · split <;> exact l3

/-- C19: every framebuffer access is in bounds.  A read or write of `DisplayMem` returns
iff its index lies in `[0, length)`; under the guard of `setPixel` the index
`NUMCOLUMNS - 1 - x` lies in `[0, 6]`; and on a 7-entry framebuffer `setPixel` (all
arguments), `cls`, `printCode` on a valid glyph index, `showLeds` (every `k`) and any
number of scan ticks started from cursor 0 return, i.e. none of their accesses leaves
`[0, NUMCOLUMNS)`, the cursor staying below 7. -/
theorem framebuffer_accesses_in_bounds :
    (∀ (s : State) (i : Int),
      (readMem s i).isSome = true ↔ 0 ≤ i ∧ i < (s.DisplayMem.length : Int)) ∧
    (∀ (s : State) (i : Int) (v : Nat),
      (writeMem s i v).isSome = true ↔ 0 ≤ i ∧ i < (s.DisplayMem.length : Int)) ∧
    (∀ x : Nat, x < NUMCOLUMNS →
      0 ≤ (NUMCOLUMNS : Int) - 1 - (x : Int) ∧ (NUMCOLUMNS : Int) - 1 - (x : Int) ≤ 6) ∧
    (∀ (s : State) (x y i : Nat), s.DisplayMem.length = NUMCOLUMNS →
      ∃ s', setPixel x y i s = some s') ∧
    (∀ s : State, s.DisplayMem.length = NUMCOLUMNS → ∃ s', cls s = some s') ∧
    (∀ (tbl : GlyphTable) (c : Nat) (s : State), s.DisplayMem.length = NUMCOLUMNS →
      validGlyph tbl c → ∃ s', printCode tbl c s = some s') ∧
    (∀ (k : Nat) (s : State), s.DisplayMem.length = NUMCOLUMNS →
      ∃ s', showLeds k s = some s') ∧
    (∀ (n : Nat) (s : State), s.DisplayMem.length = NUMCOLUMNS → s.column = 0 →
      ∃ s', ticks n s = some s' ∧ s'.column < NUMCOLUMNS) := by
  refine ⟨readMem_isSome, writeMem_isSome, ?_, ?_, ?_, ?_, ?_, ?_⟩
  · intro x hx
    have h7 : x < 7 := hx
    have e : ((NUMCOLUMNS : Nat) : Int) = 7 := rfl
    rw [e]
    omega
  · intro s x y i hs
    obtain ⟨s', h, _⟩ := setPixel_len x y i s hs
    exact ⟨s', h⟩
  · intro s hs
    exact ⟨_, cls_eq hs⟩
  · intro tbl c s hs hg
    obtain ⟨s', h, _⟩ := printCode_spec hg s hs
    exact ⟨s', h⟩
  · intro k s hs
    obtain ⟨s', h, _⟩ := showLeds_len k s hs
    exact ⟨s', h⟩
  · intro n s hs h0
    obtain ⟨s', h, _, c, _⟩ := ticks_spec n s hs (by rw [h0]; decide)
    refine ⟨s', h, ?_⟩
    rw [c]
    exact Nat.mod_lt _ (by norm_num)

theorem framebuffer_accesses_in_bounds_witness :
    sampleState.DisplayMem.length = NUMCOLUMNS ∧ validGlyph sampleFont 38 ∧
    sampleState.column = 0 ∧
    (∃ s', setPixel 255 255 255 sampleState = some s') ∧
    (∃ s', setPixel 6 4 1 sampleState = some s') ∧
    (∃ s', cls sampleState = some s') ∧
    (∃ s', printCode sampleFont 38 sampleState = some s') ∧
    (∃ s', showLeds 0xFF sampleState = some s') ∧
    (∃ s', ticks 100 sampleState = some s' ∧ s'.column < NUMCOLUMNS) :=
  ⟨by decide, by decide, by decide,
    framebuffer_accesses_in_bounds.2.2.2.1 sampleState 255 255 255 (by decide),
    framebuffer_accesses_in_bounds.2.2.2.1 sampleState 6 4 1 (by decide),
    framebuffer_accesses_in_bounds.2.2.2.2.1 sampleState (by decide),
    framebuffer_accesses_in_bounds.2.2.2.2.2.1 sampleFont 38 sampleState (by decide) (by decide),
    framebuffer_accesses_in_bounds.2.2.2.2.2.2.1 0xFF sampleState (by decide),
    framebuffer_accesses_in_bounds.2.2.2.2.2.2.2 100 sampleState (by decide) (by decide)⟩

/-- C20: hex-digit rendering agrees with character rendering: for every `v` in 0..15 and
every prior state, `hex1 v` behaves as `_putchar` on the hexadecimal character of `v`
(`'0' + v` for `v < 10`; `'A' + (v - 10)` and `'a' + (v - 10)` for `v ≥ 10`), the offset
`+3` landing on the glyph index `(v - 10) + 13` in 13..18 that `_putchar` uses for
'A'..'F'; on a 7-entry framebuffer and a valid glyph index the calls return one and the
same state. -/
theorem hex1_agrees_with_putchar (tbl : GlyphTable) (v : Nat) (s : State) (hv : v < 16) :
    (v < 10 → hex1 tbl v s = _putchar tbl (48 + (v : Int)) s) ∧
    (10 ≤ v → hex1 tbl v s = _putchar tbl (65 + ((v - 10 : Nat) : Int)) s ∧
      hex1 tbl v s = _putchar tbl (97 + ((v - 10 : Nat) : Int)) s ∧
      v + 3 = (v - 10) + 13 ∧ 13 ≤ v + 3 ∧ v + 3 ≤ 18) ∧
    (s.DisplayMem.length = NUMCOLUMNS → validGlyph tbl (if v < 10 then v else v + 3) →
      ∃ s', hex1 tbl v s = some s' ∧
        (v < 10 → _putchar tbl (48 + (v : Int)) s = some s') ∧
        (10 ≤ v → _putchar tbl (65 + ((v - 10 : Nat) : Int)) s = some s' ∧
          _putchar tbl (97 + ((v - 10 : Nat) : Int)) s = some s')) := by
  have hlo : v < 10 → hex1 tbl v s = _putchar tbl (48 + (v : Int)) s := by
    intro h
    rw [putchar_digit tbl v s h]
    unfold hex1
    rw [if_pos h]
  have hhi : 10 ≤ v → hex1 tbl v s = _putchar tbl (65 + ((v - 10 : Nat) : Int)) s ∧
      hex1 tbl v s = _putchar tbl (97 + ((v - 10 : Nat) : Int)) s := by
    intro h
    have e : v - 10 + 13 = v + 3 := by omega
    rw [putchar_upper tbl (v - 10) s (by omega), putchar_lower tbl (v - 10) s (by omega), e]
    unfold hex1
    rw [if_neg (by omega)]
    exact ⟨rfl, rfl⟩
  refine ⟨hlo, ?_, ?_⟩
  · intro h
    exact ⟨(hhi h).1, (hhi h).2, by omega, by omega, by omega⟩
  · intro hs hg
    obtain ⟨s', h1, _⟩ := printCode_spec hg s hs
    have hx : hex1 tbl v s = some s' := by
      unfold hex1
      by_cases h : v < 10
      · rw [if_pos h] at h1 ⊢
        exact h1
      · rw [if_neg h] at h1 ⊢
        exact h1
    refine ⟨s', hx, ?_, ?_⟩
    · intro h
      rw [← hlo h]; exact hx
    · intro h
      rw [← (hhi h).1, ← (hhi h).2]
      exact ⟨hx, hx⟩

theorem hex1_agrees_with_putchar_witness :
    12 < 16 ∧ (10 : Nat) ≤ 12 ∧ sampleState.DisplayMem.length = NUMCOLUMNS ∧
    validGlyph sampleFont (if 12 < 10 then 12 else 12 + 3) ∧
    (hex1 sampleFont 12 sampleState =
        _putchar sampleFont (65 + ((12 - 10 : Nat) : Int)) sampleState ∧
      hex1 sampleFont 12 sampleState =
        _putchar sampleFont (97 + ((12 - 10 : Nat) : Int)) sampleState ∧
      12 + 3 = (12 - 10) + 13 ∧ 13 ≤ 12 + 3 ∧ 12 + 3 ≤ 18) ∧
    (∃ s', hex1 sampleFont 12 sampleState = some s' ∧
      ((12 : Nat) < 10 → _putchar sampleFont (48 + ((12 : Nat) : Int)) sampleState = some s') ∧
      ((10 : Nat) ≤ 12 →
        _putchar sampleFont (65 + ((12 - 10 : Nat) : Int)) sampleState = some s' ∧
        _putchar sampleFont (97 + ((12 - 10 : Nat) : Int)) sampleState = some s')) :=
  have h := hex1_agrees_with_putchar sampleFont 12 sampleState (by decide)
  ⟨by decide, by decide, by decide, by decide, h.2.1 (by decide),
    h.2.2 (by decide) (by decide)⟩

end CH2Display
